import Mathlib

/-!
# Verification of the puzzcode adaptive difficulty and matchmaking core

Shallow embedding over `ℚ` of the Python modules `algo_config.py`, `DDA_Algo.py`,
`IRT_Algo.py`, `IRT_Bases/{Success,Fail,Rank,Achivements}.py`, `Puzzel_Based.py`,
`KMeans_Cluster.py`, `Multiplayer_Based.py`, `SkillBasedMatchMaking.py` and
`algorithms/matchmaking.py`.

Conventions used throughout:

* Python floats are modelled as rationals (`ℚ`); `round(x, n)` is modelled by
  `pyround n x`, banker's rounding at `n` decimal places, which is what Python's
  `round` computes (away from binary-representation edge cases, which none of the
  concrete inputs used below touch).
* `math.tanh` and `math.sqrt` are transcendental, so the embedded functions take
  them as explicit function parameters `t` (for tanh) and `s` (for sqrt).
  Universal theorems quantify over these parameters, assuming only facts that the
  real `tanh` / `sqrt` satisfy (oddness, sign, boundedness, concrete numeric
  bounds); closed statements instantiate them with the computable stand-ins
  `tWit` (a clamped Padé approximant of tanh) and `sqrt_model`, which satisfy all
  those facts at the arguments used.
* `random.random()` / `random.choice(...)` are modelled by an explicit oracle
  `RandSrc`; every draw reads a fresh index, so every concrete execution of the
  Python code corresponds to some oracle.
-/

namespace Puzzcode

/-! ## Python `round` (banker's rounding at `n` decimal places) -/

/-- `max` on ℚ, written with an `if` so that it evaluates by `simp`/`norm_num`. -/
def qmax (a b : ℚ) : ℚ := if a ≤ b then b else a

/-- `min` on ℚ, written with an `if` so that it evaluates by `simp`/`norm_num`. -/
def qmin (a b : ℚ) : ℚ := if a ≤ b then a else b

/-- `abs` on ℚ, written with an `if` so that it evaluates by `simp`/`norm_num`. -/
def qabs (a : ℚ) : ℚ := if a < 0 then -a else a

theorem qmax_eq (a b : ℚ) : qmax a b = max a b := by
  unfold qmax
  split
  · rename_i h
    rw [max_eq_right h]
  · rename_i h
    push_neg at h
    rw [max_eq_left h.le]

theorem qmin_eq (a b : ℚ) : qmin a b = min a b := by
  unfold qmin
  split
  · rename_i h
    rw [min_eq_left h]
  · rename_i h
    push_neg at h
    rw [min_eq_right h.le]

theorem qabs_eq (a : ℚ) : qabs a = |a| := by
  unfold qabs
  split
  · rename_i h
    rw [abs_of_neg h]
  · rename_i h
    push_neg at h
    rw [abs_of_nonneg h]

/-- Round to the nearest integer, halves to the even integer (Python `round`). -/
def roundHalfEven (x : ℚ) : ℤ :=
  if x - (⌊x⌋ : ℚ) < 1/2 then ⌊x⌋
  else if 1/2 < x - (⌊x⌋ : ℚ) then ⌊x⌋ + 1
  else if ⌊x⌋ % 2 = 0 then ⌊x⌋ else ⌊x⌋ + 1

/-- Python `round(x, n)` on our rational model of floats. -/
def pyround (n : ℕ) (x : ℚ) : ℚ := ((roundHalfEven (x * 10 ^ n) : ℚ)) / 10 ^ n

theorem floor_le_roundHalfEven (x : ℚ) : ⌊x⌋ ≤ roundHalfEven x := by
  unfold roundHalfEven
  split
  · exact le_refl _
  · split
    · omega
    · split
      · exact le_refl _
      · omega

theorem roundHalfEven_le_floor_add_one (x : ℚ) : roundHalfEven x ≤ ⌊x⌋ + 1 := by
  unfold roundHalfEven
  split
  · omega
  · split
    · exact le_refl _
    · split
      · omega
      · exact le_refl _

theorem roundHalfEven_le_ceil (x : ℚ) : roundHalfEven x ≤ ⌈x⌉ := by
  have hfc : (⌊x⌋ : ℚ) ≤ x := Int.floor_le x
  rcases eq_or_lt_of_le hfc with heq | hlt
  · have hx : x = ((⌊x⌋ : ℤ) : ℚ) := heq.symm
    have h1 : roundHalfEven x = ⌊x⌋ := by
      unfold roundHalfEven
      rw [if_pos]
      rw [← hx]
      norm_num
    have h2 : ⌈x⌉ = ⌊x⌋ := by
      rw [hx, Int.ceil_intCast, Int.floor_intCast]
    omega
  · have h2 : ⌊x⌋ < ⌈x⌉ := by
      by_contra hc
      push_neg at hc
      have h3 : (⌈x⌉ : ℚ) ≤ (⌊x⌋ : ℚ) := by exact_mod_cast hc
      have h4 : x ≤ (⌈x⌉ : ℚ) := Int.le_ceil x
      linarith
    have := roundHalfEven_le_floor_add_one x
    omega

theorem roundHalfEven_sub_le (x : ℚ) : |((roundHalfEven x : ℤ) : ℚ) - x| ≤ 1/2 := by
  have hf : (⌊x⌋ : ℚ) ≤ x := Int.floor_le x
  have hf2 : x < (⌊x⌋ : ℚ) + 1 := Int.lt_floor_add_one x
  unfold roundHalfEven
  split
  · rename_i h
    rw [abs_le]
    constructor <;> linarith
  · split
    · rename_i h1 h2
      rw [abs_le]
      push_cast
      constructor <;> linarith
    · split
      · rename_i h1 h2 _
        push_neg at h1 h2
        rw [abs_le]
        constructor <;> linarith
      · rename_i h1 h2 _
        push_neg at h1 h2
        rw [abs_le]
        push_cast
        constructor <;> linarith

theorem roundHalfEven_eq (m : ℤ) (x : ℚ) (h1 : (m : ℚ) - 1/2 < x) (h2 : x < (m : ℚ) + 1/2) :
    roundHalfEven x = m := by
  rcases lt_trichotomy x (m : ℚ) with hx | hx | hx
  · have hfl : ⌊x⌋ = m - 1 := by
      apply Int.floor_eq_iff.mpr
      constructor <;> push_cast <;> linarith
    have hr2 : ¬ (x - (⌊x⌋ : ℚ) < 1/2) := by
      rw [hfl]; push_cast; linarith
    have hr : 1/2 < x - (⌊x⌋ : ℚ) := by
      rw [hfl]; push_cast; linarith
    unfold roundHalfEven
    rw [if_neg hr2, if_pos hr, hfl]
    omega
  · have hfl : ⌊x⌋ = m := by rw [hx]; exact Int.floor_intCast m
    have hr : x - (⌊x⌋ : ℚ) < 1/2 := by rw [hfl, hx]; norm_num
    unfold roundHalfEven
    rw [if_pos hr, hfl]
  · have hfl : ⌊x⌋ = m := by
      apply Int.floor_eq_iff.mpr
      constructor <;> push_cast <;> linarith
    have hr : x - (⌊x⌋ : ℚ) < 1/2 := by rw [hfl]; linarith
    unfold roundHalfEven
    rw [if_pos hr, hfl]

theorem pyround_sub_le (n : ℕ) (x : ℚ) : |pyround n x - x| ≤ 1 / (2 * 10 ^ n) := by
  have h := roundHalfEven_sub_le (x * 10 ^ n)
  have hp : (0:ℚ) < 10 ^ n := by positivity
  have key : pyround n x - x = (((roundHalfEven (x * 10 ^ n) : ℤ) : ℚ) - x * 10 ^ n) / 10 ^ n := by
    unfold pyround
    field_simp
    ring
  rw [key, abs_div, abs_of_pos hp]
  rw [div_le_iff hp]
  have hgoal : 1 / (2 * 10 ^ n) * 10 ^ n = (1:ℚ)/2 := by
    field_simp
    ring
  rw [hgoal]
  exact h

theorem pyround_le_of_le (n : ℕ) (x : ℚ) (m : ℤ) (h : x ≤ (m : ℚ) / 10 ^ n) :
    pyround n x ≤ (m : ℚ) / 10 ^ n := by
  unfold pyround
  have hp : (0:ℚ) < 10 ^ n := by positivity
  have hx : x * 10 ^ n ≤ (m : ℚ) := by
    rw [← le_div_iff hp]
    exact h
  have hc : roundHalfEven (x * 10 ^ n) ≤ ⌈x * 10 ^ n⌉ := roundHalfEven_le_ceil _
  have hcm : ⌈x * 10 ^ n⌉ ≤ m := Int.ceil_le.mpr hx
  have : ((roundHalfEven (x * 10 ^ n) : ℤ) : ℚ) ≤ (m : ℚ) := by exact_mod_cast le_trans hc hcm
  gcongr

theorem le_pyround_of_le (n : ℕ) (x : ℚ) (m : ℤ) (h : (m : ℚ) / 10 ^ n ≤ x) :
    (m : ℚ) / 10 ^ n ≤ pyround n x := by
  unfold pyround
  have hp : (0:ℚ) < 10 ^ n := by positivity
  have hx : (m : ℚ) ≤ x * 10 ^ n := by
    rw [← div_le_iff hp]
    exact h
  have hfm : m ≤ ⌊x * 10 ^ n⌋ := Int.le_floor.mpr hx
  have hc : ⌊x * 10 ^ n⌋ ≤ roundHalfEven (x * 10 ^ n) := floor_le_roundHalfEven _
  have : (m : ℚ) ≤ ((roundHalfEven (x * 10 ^ n) : ℤ) : ℚ) := by exact_mod_cast le_trans hfm hc
  gcongr

/-! ## Computable stand-ins for `math.tanh` and `math.sqrt`

`tWit` is the Padé approximant `x (27 + x²) / (27 + 9 x²)` of tanh, clamped to
`[-1, 1]`.  It agrees with the facts about `math.tanh` that the universal
theorems below assume (odd, sign-preserving, bounded by 1, and the concrete
numeric bounds at the arguments the claims use).  `sqrt_model` matches
`math.sqrt` at the arguments reached by the concrete inputs used below. -/

def tWit (x : ℚ) : ℚ := qmax (-1) (qmin 1 (x * (27 + x * x) / (27 + 9 * (x * x))))

def sqrt_model (x : ℚ) : ℚ :=
  if x = 0 then 0
  else if x = 1/20 then 223607/1000000
  else if x = 1 then 1
  else x

theorem tWit_abs_le (x : ℚ) : |tWit x| ≤ 1 := by
  unfold tWit
  rw [qmax_eq, qmin_eq, abs_le]
  constructor
  · exact le_max_left _ _
  · exact max_le (by norm_num) (min_le_left _ _)

theorem tWit_small_lower (x : ℚ) (h1 : 1/40 ≤ x) (h2 : x ≤ 1/10) : 1/1000 ≤ tWit x := by
  unfold tWit
  rw [qmax_eq, qmin_eq]
  have hd : (0:ℚ) < 27 + 9 * (x * x) := by nlinarith
  have hP : 1/1000 ≤ x * (27 + x * x) / (27 + 9 * (x * x)) := by
    rw [le_div_iff hd]
    nlinarith
  have h1' : 1/1000 ≤ min 1 (x * (27 + x * x) / (27 + 9 * (x * x))) := by
    apply le_min (by norm_num) hP
  exact le_trans h1' (le_max_right _ _)

/-! ## `algo_config.py` -/

def BETA_MIN : ℚ := 1/10
def BETA_MAX : ℚ := 1
def MAX_BETA_STEP : ℚ := 3/20
def STABILITY_THRESHOLD_DEFAULT : ℚ := 1/20
def MOMENTUM_FACTOR_DEFAULT : ℚ := 3/5

/-- `algo_config.clamp_beta`. -/
def clamp_beta (beta : ℚ) : ℚ :=
  if beta < BETA_MIN then BETA_MIN else if BETA_MAX < beta then BETA_MAX else beta

theorem clamp_beta_mem (b : ℚ) : BETA_MIN ≤ clamp_beta b ∧ clamp_beta b ≤ BETA_MAX := by
  unfold clamp_beta BETA_MIN BETA_MAX
  split
  · norm_num
  · split
    · norm_num
    · rename_i ha hb
      push_neg at ha hb
      norm_num at ha hb ⊢
      exact ⟨ha, hb⟩

theorem clamp_beta_dist (p x : ℚ) (h1 : BETA_MIN ≤ x) (h2 : x ≤ BETA_MAX) :
    |clamp_beta p - x| ≤ |p - x| := by
  unfold clamp_beta at *
  unfold BETA_MIN BETA_MAX at *
  split
  · rename_i h
    have e1 : |(1:ℚ)/10 - x| = x - 1/10 := by
      rw [abs_of_nonpos (by linarith)]; ring
    have e2 : |p - x| = x - p := by
      rw [abs_of_nonpos (by linarith)]; ring
    rw [e1, e2]
    linarith
  · split
    · rename_i h h3
      push_neg at h
      have e1 : |(1:ℚ) - x| = 1 - x := by rw [abs_of_nonneg (by linarith)]
      have e2 : |p - x| = p - x := by rw [abs_of_nonneg (by linarith)]
      rw [e1, e2]
      linarith
    · exact le_refl _

/-! ## `DDA_Algo.py` — the difficulty controller

`DDASystem` holds `_previous_beta`, `_momentum`, `_stability_threshold` and
`_momentum_factor`; we model that mutable state as `DDAState` and
`adjust_difficulty` as a state-passing function.  The success/fail metric
structures mirror the frozen dataclasses; `_fetch_success_metrics` /
`_fetch_fail_metrics` (which derive them from raw counts through
`IRT_Bases/Success.py` and `IRT_Bases/Fail.py`) are embedded further below, and
the universal theorems about `adjust_difficulty` quantify over all metric
values, which covers every value those fetchers can produce. -/

structure DDAState where
  previous_beta : Option ℚ
  momentum : ℚ
  stability_threshold : ℚ
  momentum_factor : ℚ

structure SuccessMetrics where
  level : String
  success_rate : ℚ
  consistency : ℚ
  bias : ℚ

structure FailMetrics where
  level : String
  fail_rate : ℚ
  penalty : ℚ
  normalized_fail : ℚ

structure IRTSnapshot where
  probability : ℚ
  theta : ℚ

/-- `DDASystem._sanitize_beta`. -/
def sanitize_beta (beta_old : ℚ) : ℚ := clamp_beta beta_old

/-- `DDASystem._calculate_behavior_weight`. -/
def calculate_behavior_weight (sm : SuccessMetrics) (fm : FailMetrics) : ℚ :=
  (3/5) * sm.success_rate + (2/5) * sm.consistency - (1/2) * fm.penalty

/-- `DDASystem._calculate_sensitivity`. -/
def calculate_sensitivity (theta : ℚ) : ℚ :=
  1 - (qmax (-3) (qmin 3 theta)) / 6

/-- `DDASystem._apply_behavior_weight`. -/
def apply_behavior_weight (beta_adjustment behavior_weight : ℚ) : ℚ :=
  beta_adjustment * (1 + behavior_weight * (3/10))

/-- `DDASystem._enforce_stability_gate`. -/
def enforce_stability_gate (st : DDAState) (performance_gap beta_adjustment : ℚ) : ℚ :=
  if qabs performance_gap < st.stability_threshold then 0 else beta_adjustment

/-- The updated `self._momentum` computed inside `DDASystem._apply_momentum`. -/
def momentum_next (st : DDAState) (beta_adjustment : ℚ) : ℚ :=
  st.momentum_factor * st.momentum + (1 - st.momentum_factor) * beta_adjustment

/-- Return value of `DDASystem._apply_momentum`. -/
def apply_momentum (st : DDAState) (beta_adjustment : ℚ) : ℚ :=
  beta_adjustment + momentum_next st beta_adjustment * (1/2)

/-- `DDASystem._slow_if_recently_stable`. -/
def slow_if_recently_stable (st : DDAState) (beta_old beta_adjustment : ℚ) : ℚ :=
  match st.previous_beta with
  | none => beta_adjustment
  | some prev =>
    if qabs (beta_old - prev) < st.stability_threshold then beta_adjustment * (2/5)
    else beta_adjustment

/-- `DDASystem._propose_beta` (`t` models `math.tanh`). -/
def propose_beta (t : ℚ → ℚ) (beta_old beta_adjustment : ℚ) : ℚ :=
  clamp_beta (beta_old + t beta_adjustment * (4/5))

/-- `DDASystem._cap_step`. -/
def cap_step (beta_old proposed : ℚ) : ℚ :=
  if MAX_BETA_STEP < qabs (proposed - beta_old) then
    clamp_beta (beta_old + (if beta_old < proposed then 1 else -1) * MAX_BETA_STEP)
  else clamp_beta proposed

/-- `DDASystem._preserve_on_perfect_performance`. -/
def preserve_on_perfect_performance (beta_old beta_new : ℚ) (snap : IRTSnapshot) : ℚ :=
  if 99/100 ≤ snap.probability ∧ beta_new < beta_old ∧ 1/2 ≤ beta_old then beta_old
  else beta_new

/-- `adjust_difficulty` lines 253-261: the pre-momentum (gated) adjustment. -/
def dda_gated (st : DDAState) (snap : IRTSnapshot) (sm : SuccessMetrics) (fm : FailMetrics)
    (target_performance adjustment_rate : ℚ) : ℚ :=
  let performance_gap := target_performance - snap.probability
  enforce_stability_gate st performance_gap
    (apply_behavior_weight (adjustment_rate * performance_gap * calculate_sensitivity snap.theta)
      (calculate_behavior_weight sm fm))

/-- `adjust_difficulty` lines 253-263: the final `beta_adjustment`. -/
def dda_final_adjustment (st : DDAState) (beta_old_s : ℚ) (snap : IRTSnapshot)
    (sm : SuccessMetrics) (fm : FailMetrics) (target_performance adjustment_rate : ℚ) : ℚ :=
  slow_if_recently_stable st beta_old_s
    (apply_momentum st (dda_gated st snap sm fm target_performance adjustment_rate))

/-- `adjust_difficulty` lines 265-266: the proposed beta after the step cap. -/
def dda_capped (t : ℚ → ℚ) (st : DDAState) (beta_old : ℚ) (snap : IRTSnapshot)
    (sm : SuccessMetrics) (fm : FailMetrics) (target_performance adjustment_rate : ℚ) : ℚ :=
  let bs := sanitize_beta beta_old
  cap_step bs
    (propose_beta t bs (dda_final_adjustment st bs snap sm fm target_performance adjustment_rate))

/-- `adjust_difficulty` line 267: beta after the perfect-performance guard.  This is
the value stored in `self._previous_beta`. -/
def dda_beta_new (t : ℚ → ℚ) (st : DDAState) (beta_old : ℚ) (snap : IRTSnapshot)
    (sm : SuccessMetrics) (fm : FailMetrics) (target_performance adjustment_rate : ℚ) : ℚ :=
  preserve_on_perfect_performance (sanitize_beta beta_old)
    (dda_capped t st beta_old snap sm fm target_performance adjustment_rate) snap

/-- The fields of the `_build_response` dict that the claims are about.  Note
that the reported `beta_new` is `round(beta_new, 3)`. -/
structure AdjustResponse where
  beta_new : ℚ
  adjustment_applied : ℚ
  momentum : ℚ
  behavior_weight : ℚ

/-- `DDASystem.adjust_difficulty`: returns the response plus the updated
controller state (`_momentum` updated by `_apply_momentum`, `_previous_beta`
set to the unrounded new beta). -/
def adjust_difficulty (t : ℚ → ℚ) (st : DDAState) (beta_old : ℚ) (snap : IRTSnapshot)
    (sm : SuccessMetrics) (fm : FailMetrics) (target_performance adjustment_rate : ℚ) :
    AdjustResponse × DDAState :=
  let bs := sanitize_beta beta_old
  let m2 := momentum_next st (dda_gated st snap sm fm target_performance adjustment_rate)
  let bn := dda_beta_new t st beta_old snap sm fm target_performance adjustment_rate
  (⟨pyround 3 bn, pyround 3 (bn - bs), pyround 3 m2,
    pyround 3 (calculate_behavior_weight sm fm)⟩,
   ⟨some bn, m2, st.stability_threshold, st.momentum_factor⟩)

/-! ### Claim C1 — per-call step cap -/

theorem cap_step_dist (bs p : ℚ) (h1 : BETA_MIN ≤ bs) (h2 : bs ≤ BETA_MAX) :
    |cap_step bs p - bs| ≤ MAX_BETA_STEP := by
  unfold cap_step
  simp only [qabs_eq]
  split
  · rename_i h
    split
    · rename_i hdir
      have e : bs + 1 * MAX_BETA_STEP = bs + MAX_BETA_STEP := by ring
      rw [e]
      unfold clamp_beta MAX_BETA_STEP at *
      unfold BETA_MIN BETA_MAX at *
      split
      · rename_i hc; rw [abs_le]; constructor <;> linarith
      · split
        · rename_i hc; rw [abs_le]; constructor <;> linarith
        · rw [abs_le]; constructor <;> linarith
    · rename_i hdir
      have e : bs + -1 * MAX_BETA_STEP = bs - MAX_BETA_STEP := by ring
      rw [e]
      unfold clamp_beta MAX_BETA_STEP at *
      unfold BETA_MIN BETA_MAX at *
      split
      · rename_i hc; rw [abs_le]; constructor <;> linarith
      · split
        · rename_i hc; rw [abs_le]; constructor <;> linarith
        · rw [abs_le]; constructor <;> linarith
  · rename_i h
    push_neg at h
    exact le_trans (clamp_beta_dist p bs h1 h2) h

theorem dda_beta_new_dist (t : ℚ → ℚ) (st : DDAState) (beta_old : ℚ) (snap : IRTSnapshot)
    (sm : SuccessMetrics) (fm : FailMetrics) (tp rate : ℚ) :
    |dda_beta_new t st beta_old snap sm fm tp rate - sanitize_beta beta_old| ≤ MAX_BETA_STEP := by
  unfold dda_beta_new preserve_on_perfect_performance
  have hm := clamp_beta_mem beta_old
  have hcap := cap_step_dist (sanitize_beta beta_old)
    (propose_beta t (sanitize_beta beta_old)
      (dda_final_adjustment st (sanitize_beta beta_old) snap sm fm tp rate))
    hm.1 hm.2
  split
  · rw [sub_self, abs_zero]
    norm_num [MAX_BETA_STEP]
  · unfold dda_capped
    exact hcap

/-- C1, amended.  The unrounded new beta (the value kept in controller state)
always lies within `MAX_BETA_STEP = 0.15` of the sanitized input beta; the
`beta_new` reported in the response dict is that value rounded to 3 decimals,
so it lies within `0.15 + 0.0005 = 0.1505` of the sanitized input beta.  (The
claim as frozen — bound `0.15` for the reported value — fails; see the
counterexample.)  Holds for every function `t` standing in for `math.tanh`,
every controller state and every input. -/
theorem C1_step_cap_amended (t : ℚ → ℚ) (st : DDAState) (beta_old : ℚ) (snap : IRTSnapshot)
    (sm : SuccessMetrics) (fm : FailMetrics) (tp rate : ℚ) :
    |dda_beta_new t st beta_old snap sm fm tp rate - sanitize_beta beta_old| ≤ 3/20 ∧
    |(adjust_difficulty t st beta_old snap sm fm tp rate).1.beta_new - sanitize_beta beta_old| ≤
      3/20 + 1/2000 := by
  have h1 := dda_beta_new_dist t st beta_old snap sm fm tp rate
  unfold MAX_BETA_STEP at h1
  refine ⟨h1, ?_⟩
  have h2 := pyround_sub_le 3 (dda_beta_new t st beta_old snap sm fm tp rate)
  have h3 : (1:ℚ) / (2 * 10 ^ 3) = 1/2000 := by norm_num
  rw [h3] at h2
  have e : (adjust_difficulty t st beta_old snap sm fm tp rate).1.beta_new =
      pyround 3 (dda_beta_new t st beta_old snap sm fm tp rate) := rfl
  rw [e]
  calc |pyround 3 (dda_beta_new t st beta_old snap sm fm tp rate) - sanitize_beta beta_old|
      ≤ |pyround 3 (dda_beta_new t st beta_old snap sm fm tp rate) -
          dda_beta_new t st beta_old snap sm fm tp rate| +
        |dda_beta_new t st beta_old snap sm fm tp rate - sanitize_beta beta_old| := by
        have := abs_sub_abs_le_abs_sub (pyround 3 (dda_beta_new t st beta_old snap sm fm tp rate))
          (sanitize_beta beta_old)
        exact abs_sub_le _ _ _
    _ ≤ 1/2000 + 3/20 := add_le_add h2 h1
    _ = 3/20 + 1/2000 := by ring

/-- C1, counterexample to the claim as frozen: with sanitized input beta
`0.2006`, zero probability, zero metrics (the exact metric values
`_fetch_success_metrics(0)` / `_fetch_fail_metrics(0)` produce) and adjustment
rate 100, the reported `beta_new` is `round(0.3506, 3) = 0.351`, and
`|0.351 - 0.2006| = 0.1504 > 0.15`. -/
theorem C1_step_cap_cex :
    ¬ (|(adjust_difficulty tWit ⟨none, 0, 1/20, 3/5⟩ (1003/5000) ⟨0, 0⟩
          ⟨"Beginner", 0, 0, 0⟩ ⟨"Minimal Failure", 0, 0, 0⟩ (7/10) 100).1.beta_new -
        sanitize_beta (1003/5000)| ≤ 3/20) := by
  have h : (adjust_difficulty tWit ⟨none, 0, 1/20, 3/5⟩ (1003/5000) ⟨0, 0⟩
      ⟨"Beginner", 0, 0, 0⟩ ⟨"Minimal Failure", 0, 0, 0⟩ (7/10) 100).1.beta_new = 351/1000 := by
    norm_num [adjust_difficulty, dda_beta_new, dda_capped, dda_final_adjustment, dda_gated,
      preserve_on_perfect_performance, cap_step, propose_beta, slow_if_recently_stable,
      apply_momentum, momentum_next, enforce_stability_gate, apply_behavior_weight,
      calculate_behavior_weight, calculate_sensitivity, sanitize_beta, clamp_beta,
      tWit, qmax, qmin, qabs, pyround, roundHalfEven, BETA_MIN, BETA_MAX, MAX_BETA_STEP]
  rw [h]
  intro hc
  rw [abs_le] at hc
  have := hc.2
  norm_num [sanitize_beta, clamp_beta, BETA_MIN, BETA_MAX] at this

/-! ### Claim C4 — perfect-performance guard -/

/-- C4, amended.  When the snapshot probability is ≥ 0.99, the sanitized old
beta is ≥ 0.5 and the step-capped proposal is lower than it, the decrease is
discarded: the unrounded result — the value stored in `_previous_beta` —
equals the sanitized old beta exactly, and the `beta_new` reported in the
response dict is that value rounded to 3 decimals (hence not exactly equal to
it whenever the sanitized old beta has more than 3 decimals; see the
counterexample). -/
theorem C4_perfect_guard_amended (t : ℚ → ℚ) (st : DDAState) (beta_old : ℚ)
    (snap : IRTSnapshot) (sm : SuccessMetrics) (fm : FailMetrics) (tp rate : ℚ)
    (hp : 99/100 ≤ snap.probability)
    (hdec : dda_capped t st beta_old snap sm fm tp rate < sanitize_beta beta_old)
    (hb : 1/2 ≤ sanitize_beta beta_old) :
    dda_beta_new t st beta_old snap sm fm tp rate = sanitize_beta beta_old ∧
    (adjust_difficulty t st beta_old snap sm fm tp rate).2.previous_beta =
      some (sanitize_beta beta_old) ∧
    (adjust_difficulty t st beta_old snap sm fm tp rate).1.beta_new =
      pyround 3 (sanitize_beta beta_old) := by
  have h : dda_beta_new t st beta_old snap sm fm tp rate = sanitize_beta beta_old := by
    unfold dda_beta_new preserve_on_perfect_performance
    rw [if_pos ⟨hp, hdec, hb⟩]
  refine ⟨h, ?_, ?_⟩
  · show some (dda_beta_new t st beta_old snap sm fm tp rate) = _
    rw [h]
  · show pyround 3 (dda_beta_new t st beta_old snap sm fm tp rate) = _
    rw [h]

/-- C4, witness for the amended theorem at a concrete input (old beta `0.5006`,
probability 1, zero metrics, default target/rate, fresh controller). -/
theorem C4_perfect_guard_witness :
    dda_beta_new tWit ⟨none, 0, 1/20, 3/5⟩ (2503/5000) ⟨1, 0⟩
        ⟨"Beginner", 0, 0, 0⟩ ⟨"Minimal Failure", 0, 0, 0⟩ (7/10) (1/10) =
      sanitize_beta (2503/5000) ∧
    (adjust_difficulty tWit ⟨none, 0, 1/20, 3/5⟩ (2503/5000) ⟨1, 0⟩
        ⟨"Beginner", 0, 0, 0⟩ ⟨"Minimal Failure", 0, 0, 0⟩ (7/10) (1/10)).2.previous_beta =
      some (sanitize_beta (2503/5000)) ∧
    (adjust_difficulty tWit ⟨none, 0, 1/20, 3/5⟩ (2503/5000) ⟨1, 0⟩
        ⟨"Beginner", 0, 0, 0⟩ ⟨"Minimal Failure", 0, 0, 0⟩ (7/10) (1/10)).1.beta_new =
      pyround 3 (sanitize_beta (2503/5000)) :=
  C4_perfect_guard_amended tWit ⟨none, 0, 1/20, 3/5⟩ (2503/5000) ⟨1, 0⟩
    ⟨"Beginner", 0, 0, 0⟩ ⟨"Minimal Failure", 0, 0, 0⟩ (7/10) (1/10)
    (by norm_num)
    (by
      norm_num [dda_capped, dda_final_adjustment, dda_gated, cap_step, propose_beta,
        slow_if_recently_stable, apply_momentum, momentum_next, enforce_stability_gate,
        apply_behavior_weight, calculate_behavior_weight, calculate_sensitivity,
        sanitize_beta, clamp_beta, tWit, qmax, qmin, qabs, BETA_MIN, BETA_MAX, MAX_BETA_STEP])
    (by norm_num [sanitize_beta, clamp_beta, BETA_MIN, BETA_MAX])

/-- C4, counterexample to the claim as frozen: same concrete call; all three
guard conditions hold, yet the reported `beta_new` is `round(0.5006, 3) =
0.501 ≠ 0.5006`. -/
theorem C4_perfect_guard_cex :
    99/100 ≤ (1:ℚ) ∧
    dda_capped tWit ⟨none, 0, 1/20, 3/5⟩ (2503/5000) ⟨1, 0⟩
        ⟨"Beginner", 0, 0, 0⟩ ⟨"Minimal Failure", 0, 0, 0⟩ (7/10) (1/10) <
      sanitize_beta (2503/5000) ∧
    1/2 ≤ sanitize_beta (2503/5000) ∧
    ¬ ((adjust_difficulty tWit ⟨none, 0, 1/20, 3/5⟩ (2503/5000) ⟨1, 0⟩
          ⟨"Beginner", 0, 0, 0⟩ ⟨"Minimal Failure", 0, 0, 0⟩ (7/10) (1/10)).1.beta_new =
        sanitize_beta (2503/5000)) := by
  norm_num [adjust_difficulty, dda_beta_new, dda_capped, dda_final_adjustment, dda_gated,
    preserve_on_perfect_performance, cap_step, propose_beta, slow_if_recently_stable,
    apply_momentum, momentum_next, enforce_stability_gate, apply_behavior_weight,
    calculate_behavior_weight, calculate_sensitivity, sanitize_beta, clamp_beta,
    tWit, qmax, qmin, qabs, pyround, roundHalfEven, BETA_MIN, BETA_MAX, MAX_BETA_STEP]

/-! ### Claim C8 — stability gate -/

/-- C8.  If the absolute performance gap is below the controller's stability
threshold, the gated (pre-momentum) adjustment is exactly 0, the momentum
update degenerates to pure decay of the previous momentum, and the resulting
difficulty is independent of the adjustment rate and of the behaviour
metrics — only momentum carried over from earlier calls can still move it. -/
theorem C8_stability_gate (t : ℚ → ℚ) (st : DDAState) (beta_old : ℚ) (snap : IRTSnapshot)
    (sm sm2 : SuccessMetrics) (fm fm2 : FailMetrics) (tp rate rate2 : ℚ)
    (h : |tp - snap.probability| < st.stability_threshold) :
    dda_gated st snap sm fm tp rate = 0 ∧
    (adjust_difficulty t st beta_old snap sm fm tp rate).2.momentum =
      st.momentum_factor * st.momentum ∧
    (adjust_difficulty t st beta_old snap sm fm tp rate).1.beta_new =
      (adjust_difficulty t st beta_old snap sm2 fm2 tp rate2).1.beta_new := by
  have hg : ∀ (sm' : SuccessMetrics) (fm' : FailMetrics) (rate' : ℚ),
      dda_gated st snap sm' fm' tp rate' = 0 := by
    intro sm' fm' rate'
    simp only [dda_gated, enforce_stability_gate, qabs_eq]
    rw [if_pos h]
  refine ⟨hg sm fm rate, ?_, ?_⟩
  · show momentum_next st (dda_gated st snap sm fm tp rate) = _
    rw [hg sm fm rate]
    unfold momentum_next
    ring
  · show pyround 3 (dda_beta_new t st beta_old snap sm fm tp rate) =
      pyround 3 (dda_beta_new t st beta_old snap sm2 fm2 tp rate2)
    unfold dda_beta_new dda_capped dda_final_adjustment apply_momentum momentum_next
    rw [hg sm fm rate, hg sm2 fm2 rate2]

/-- C8, witness: fresh controller, probability exactly on target. -/
theorem C8_stability_gate_witness :
    dda_gated ⟨none, 0, 1/20, 3/5⟩ ⟨7/10, 0⟩ ⟨"Newbie", 1/20, 3/40, 1/50⟩
        ⟨"Low Failure", 1/20, 49/2000, 3/40⟩ (7/10) (1/10) = 0 ∧
    (adjust_difficulty tWit ⟨none, 0, 1/20, 3/5⟩ (1/2) ⟨7/10, 0⟩ ⟨"Newbie", 1/20, 3/40, 1/50⟩
        ⟨"Low Failure", 1/20, 49/2000, 3/40⟩ (7/10) (1/10)).2.momentum = (3/5) * 0 ∧
    (adjust_difficulty tWit ⟨none, 0, 1/20, 3/5⟩ (1/2) ⟨7/10, 0⟩ ⟨"Newbie", 1/20, 3/40, 1/50⟩
        ⟨"Low Failure", 1/20, 49/2000, 3/40⟩ (7/10) (1/10)).1.beta_new =
      (adjust_difficulty tWit ⟨none, 0, 1/20, 3/5⟩ (1/2) ⟨7/10, 0⟩ ⟨"Pro", 9/10, 1, 1/10⟩
        ⟨"High Failure", 9/10, 6/50, 1⟩ (7/10) (17/10)).1.beta_new :=
  C8_stability_gate tWit ⟨none, 0, 1/20, 3/5⟩ (1/2) ⟨7/10, 0⟩
    ⟨"Newbie", 1/20, 3/40, 1/50⟩ ⟨"Pro", 9/10, 1, 1/10⟩
    ⟨"Low Failure", 1/20, 49/2000, 3/40⟩ ⟨"High Failure", 9/10, 6/50, 1⟩
    (7/10) (1/10) (17/10) (by norm_num)

/-! ## `IRT_Bases/Success.py`, `IRT_Bases/Fail.py`, `IRT_Bases/Rank.py`,
`IRT_Bases/Achivements.py`

`get_success_rate` / `get_fail_rate` are the fast wrappers actually used by the
pipeline; `s` models `math.sqrt`.  `get_rank_data(user_id)` without EXP data
always returns `("novice", RANK_BIAS[0]) = ("novice", -0.05)`, and
`get_achievement_score` always returns `0`. -/

/-- `Success.get_success_rate`: returns `(level, round(normalized, 4), round(bias, 4))`. -/
def get_success_rate (s : ℚ → ℚ) (success_count : ℤ) : String × ℚ × ℚ :=
  let c : ℤ := if success_count < 0 then 0 else success_count
  let normalized : ℚ := qmin ((c : ℚ) / 100) 1
  let equiv : ℤ := ⌊normalized * 100⌋
  let tier : String × ℚ :=
    if 3 ≤ equiv ∧ equiv ≤ 5 then ("Newbie", 1/50)
    else if 6 ≤ equiv ∧ equiv ≤ 50 then ("Intermediate", 1/20)
    else if 51 ≤ equiv ∧ equiv ≤ 100 then ("Pro", 1/10)
    else ("Beginner", 0)
  (tier.1, pyround 4 normalized, pyround 4 (tier.2 + s normalized * (1/50)))

/-- `Fail.get_fail_rate`: returns `(level, round(normalized, 4), round(penalty, 4))`. -/
def get_fail_rate (s : ℚ → ℚ) (fail_count : ℤ) : String × ℚ × ℚ :=
  let c : ℤ := if fail_count < 0 then 0 else fail_count
  let normalized : ℚ := qmin ((c : ℚ) / 100) 1
  let equiv : ℤ := ⌊normalized * 100⌋
  let tier : String × ℚ :=
    if 3 ≤ equiv ∧ equiv ≤ 5 then ("Low Failure", 1/50)
    else if 6 ≤ equiv ∧ equiv ≤ 50 then ("Moderate Failure", 1/20)
    else if 51 ≤ equiv ∧ equiv ≤ 100 then ("High Failure", 1/10)
    else ("Minimal Failure", 0)
  (tier.1, pyround 4 normalized, pyround 4 (tier.2 + s normalized * (1/50)))

/-- `Rank.get_rank_data(user_id)` on the default (no-EXP) path: rank `novice`,
bias `RANK_BIAS[0] = -0.05`. -/
def get_rank_data_default : String × ℚ := ("novice", -(1/20))

/-- `DDASystem._fetch_success_metrics`. -/
def fetch_success_metrics (s : ℚ → ℚ) (success_count : ℤ) : SuccessMetrics :=
  let r := get_success_rate s success_count
  ⟨r.1, pyround 3 r.2.1, pyround 3 (qmin 1 (r.2.1 + r.2.2)), r.2.2⟩

/-- `DDASystem._fetch_fail_metrics`. -/
def fetch_fail_metrics (s : ℚ → ℚ) (fail_count : ℤ) : FailMetrics :=
  let r := get_fail_rate s fail_count
  ⟨r.1, r.2.1, r.2.2, pyround 3 (qmin 1 (r.2.1 + r.2.2))⟩

/-! ## `IRT_Algo.py` -/

/-- `IRTModel._clamp` with the default bounds `[-3, 3]`. -/
def irt_clamp (value : ℚ) : ℚ := qmax (-3) (qmin 3 value)

/-- `IRTModel._sigmoid` (`t` models `math.tanh`). -/
def sigmoid (t : ℚ → ℚ) (x : ℚ) : ℚ :=
  if x < -20 then 0
  else if 20 < x then 1
  else (1/2) * (1 + t (x / 2))

/-- `IRTModel.compute_probability` with the default `D = 1.7`. -/
def compute_probability (t : ℚ → ℚ) (theta beta : ℚ) : ℚ :=
  pyround 4 (sigmoid t ((17/10) * (theta - beta)))

/-- `IRTModel.compute_confidence`. -/
def compute_confidence (success_rate fail_rate : ℚ) : ℚ :=
  pyround 3 (qmax 0 (qmin (1 - qabs (success_rate - fail_rate)) 1))

/-- `IRTModel.apply_learning_decay` (default `decay_rate = 0.01`). -/
def apply_learning_decay (decay_rate : ℚ) (theta : ℚ) (sessions_played : ℤ) : ℚ :=
  pyround 3 (irt_clamp (theta * (1 - decay_rate * (sessions_played : ℚ))))

/-- `IRTModel.smooth_value` (default `alpha = 0.3`). -/
def smooth_value (alpha current previous : ℚ) : ℚ :=
  pyround 3 (alpha * current + (1 - alpha) * previous)

/-- `IRTModel.update_ability` (default `learning_rate = 0.05`). -/
def update_ability (theta : ℚ) (success_count fail_count : ℤ) (learning_rate : ℚ) : ℚ :=
  let total := success_count + fail_count
  if total = 0 then theta
  else irt_clamp (theta + ((success_count : ℚ) / (total : ℚ) - 1/2) * learning_rate)

/-- Result fields of `irt_probability` used downstream. -/
structure IrtProbResult where
  probability : ℚ
  adjusted_theta : ℚ
  confidence_index : ℚ
  success_rate : ℚ
  fail_rate : ℚ

/-- `IRT_Algo.irt_probability` on the `exp = None` path (the one used by
`Puzzel_Based.py`, `Multiplayer_Based.py` and `SkillBasedMatchMaking.py`):
`rank_bonus` comes from `get_rank_data("user")`, i.e. `-0.05`.  Note that the
returned probability is the raw `_sigmoid` value (not rounded), and that the
achievement bonus is `min(completed * 0.01 * 0.01, 0.1)`. -/
def irt_probability (t s : ℚ → ℚ) (theta beta : ℚ)
    (completed_achievements success_count fail_count : ℤ) : IrtProbResult :=
  let theta1 := irt_clamp theta
  let beta1 := qmax (1/10) (qmin 1 beta)
  let sc := if success_count < 0 then 0 else success_count
  let fc := if fail_count < 0 then 0 else fail_count
  let ca := if completed_achievements < 0 then 0 else completed_achievements
  let rank_bonus := get_rank_data_default.2
  let achievement_score := (ca : ℚ) * (1/100)
  let sr := get_success_rate s sc
  let fr := get_fail_rate s fc
  let probability := sigmoid t ((17/10) * (theta1 - beta1))
  let at1 := update_ability theta1 sc fc (1/20)
  let at2 := at1 + rank_bonus + sr.2.2 - fr.2.2
  let at3 := at2 + qmin (achievement_score * (1/100)) (1/10)
  ⟨probability, irt_clamp at3, compute_confidence sr.2.1 fr.2.1, sr.2.1, fr.2.1⟩

/-- `IRTModel.compute_full_irt`, value of `adjusted_theta` after the
rank/success/fail/achievement bonus integration (lines 146-150), i.e. the
value that enters the confidence-weighting stage.  `rank_bonus` parametrises
the rank stage (`get_rank_data` / `get_rank_from_exp`, a finite set of values
including the default-path `-0.05`); `achievement_score` parametrises
`get_achievement_score` (identically `0` in the source). -/
def full_irt_theta_after_bonus (s : ℚ → ℚ) (rank_bonus : ℚ) (achievement_score : ℤ)
    (theta : ℚ) (success_count fail_count : ℤ) : ℚ :=
  let theta1 := irt_clamp theta
  let sc := if success_count < 0 then 0 else success_count
  let fc := if fail_count < 0 then 0 else fail_count
  let sr := get_success_rate s sc
  let fr := get_fail_rate s fc
  update_ability theta1 sc fc (1/20) + rank_bonus + sr.2.2 - fr.2.2 +
    qmin ((achievement_score : ℚ) * (1/100)) (1/10)

/-- Result fields of `compute_full_irt` the claims are about. -/
structure FullIrtResult where
  probability : ℚ
  adjusted_theta : ℚ
  confidence_index : ℚ

/-- `IRTModel.compute_full_irt` (defaults `D = 1.7`, `decay_rate = 0.01`,
`alpha = 0.3`). -/
def compute_full_irt (t s : ℚ → ℚ) (rank_bonus : ℚ) (achievement_score : ℤ)
    (theta beta : ℚ) (success_count fail_count sessions_played : ℤ)
    (prev_theta : Option ℚ) : FullIrtResult :=
  let theta1 := irt_clamp theta
  let beta1 := qmax (1/10) (qmin 1 beta)
  let sc := if success_count < 0 then 0 else success_count
  let fc := if fail_count < 0 then 0 else fail_count
  let sp := if sessions_played < 1 then 1 else sessions_played
  let sr := get_success_rate s sc
  let fr := get_fail_rate s fc
  let probability := compute_probability t theta1 beta1
  let confidence := compute_confidence sr.2.1 fr.2.1
  let at2 := full_irt_theta_after_bonus s rank_bonus achievement_score theta sc fc
  let at3 := at2 * confidence
  let at4 := apply_learning_decay (1/100) at3 sp
  let at5 :=
    match prev_theta with
    | none => at4
    | some p => irt_clamp (smooth_value (3/10) at4 p)
  ⟨probability, at5, confidence⟩

/-! ### Claim C7 — output ranges and per-stage clamping of `compute_full_irt` -/

theorem irt_clamp_mem (v : ℚ) : -3 ≤ irt_clamp v ∧ irt_clamp v ≤ 3 := by
  unfold irt_clamp qmax qmin
  by_cases h1 : (3:ℚ) ≤ v
  · simp only [if_pos h1]
    norm_num
  · simp only [if_neg h1]
    push_neg at h1
    by_cases h2 : (-3:ℚ) ≤ v
    · simp only [if_pos h2]
      constructor <;> linarith
    · simp only [if_neg h2]
      norm_num

theorem pyround_nonneg (n : ℕ) (x : ℚ) (h : 0 ≤ x) : 0 ≤ pyround n x := by
  have h0 : ((0 : ℤ) : ℚ) / 10 ^ n ≤ x := by
    push_cast
    rw [zero_div]
    exact h
  have := le_pyround_of_le n x 0 h0
  push_cast at this
  rw [zero_div] at this
  exact this

theorem pyround_le_one (n : ℕ) (x : ℚ) (h : x ≤ 1) : pyround n x ≤ 1 := by
  have h1 : x ≤ ((10 ^ n : ℤ) : ℚ) / 10 ^ n := by
    push_cast
    rw [div_self (by positivity)]
    exact h
  have := pyround_le_of_le n x (10 ^ n) h1
  push_cast at this
  rw [div_self (by positivity)] at this
  exact this

theorem pyround_clamp3_mem (x : ℚ) :
    -3 ≤ pyround 3 (irt_clamp x) ∧ pyround 3 (irt_clamp x) ≤ 3 := by
  have hm := irt_clamp_mem x
  constructor
  · have h0 : ((-3000 : ℤ) : ℚ) / 10 ^ 3 ≤ irt_clamp x := by
      push_cast
      norm_num
      linarith [hm.1]
    have := le_pyround_of_le 3 (irt_clamp x) (-3000) h0
    push_cast at this
    norm_num at this
    linarith
  · have h0 : irt_clamp x ≤ ((3000 : ℤ) : ℚ) / 10 ^ 3 := by
      push_cast
      norm_num
      linarith [hm.2]
    have := pyround_le_of_le 3 (irt_clamp x) 3000 h0
    push_cast at this
    norm_num at this
    linarith

theorem sigmoid_mem (t : ℚ → ℚ) (x : ℚ) (ht : ∀ y, |t y| ≤ 1) :
    0 ≤ sigmoid t x ∧ sigmoid t x ≤ 1 := by
  unfold sigmoid
  split
  · norm_num
  · split
    · norm_num
    · have h := ht (x / 2)
      rw [abs_le] at h
      constructor <;> [linarith [h.1]; linarith [h.2]]

/-- C7, amended.  For every input (including out-of-range `theta`, `beta`,
counts and an arbitrary caller-supplied `prev_theta`), the snapshot returned
by `compute_full_irt` has `probability ∈ [0,1]` and `adjusted_theta ∈ [-3,3]`,
for every `t` bounded by 1 in absolute value (true of `math.tanh`), every
sqrt model `s`, and every rank/achievement bonus.  The ranges hold because the
probability is a rounded sigmoid value and the learning-decay stage (and the
post-smoothing step, when a previous theta is supplied) clamps to `[-3,3]` —
not because every stage clamps: the bonus-integration stage can leave the
domain (see the counterexample). -/
theorem C7_full_irt_ranges_amended (t s : ℚ → ℚ) (rank_bonus : ℚ) (achievement_score : ℤ)
    (theta beta : ℚ) (success_count fail_count sessions_played : ℤ) (prev_theta : Option ℚ)
    (ht : ∀ y, |t y| ≤ 1) :
    0 ≤ (compute_full_irt t s rank_bonus achievement_score theta beta success_count
          fail_count sessions_played prev_theta).probability ∧
    (compute_full_irt t s rank_bonus achievement_score theta beta success_count
          fail_count sessions_played prev_theta).probability ≤ 1 ∧
    -3 ≤ (compute_full_irt t s rank_bonus achievement_score theta beta success_count
          fail_count sessions_played prev_theta).adjusted_theta ∧
    (compute_full_irt t s rank_bonus achievement_score theta beta success_count
          fail_count sessions_played prev_theta).adjusted_theta ≤ 3 := by
  have hprob : (compute_full_irt t s rank_bonus achievement_score theta beta success_count
      fail_count sessions_played prev_theta).probability =
      compute_probability t (irt_clamp theta) (qmax (1/10) (qmin 1 beta)) := by
    unfold compute_full_irt
    cases prev_theta <;> rfl
  have hsig := sigmoid_mem t ((17/10) * (irt_clamp theta - qmax (1/10) (qmin 1 beta))) ht
  refine ⟨?_, ?_, ?_, ?_⟩
  · rw [hprob]
    exact pyround_nonneg 4 _ hsig.1
  · rw [hprob]
    exact pyround_le_one 4 _ hsig.2
  · unfold compute_full_irt
    cases prev_theta
    · exact (pyround_clamp3_mem _).1
    · exact (irt_clamp_mem _).1
  · unfold compute_full_irt
    cases prev_theta
    · exact (pyround_clamp3_mem _).2
    · exact (irt_clamp_mem _).2

/-- C7, witness for the amended theorem at a concrete input, with `tWit` in
place of `math.tanh` (its boundedness discharges the hypothesis). -/
theorem C7_full_irt_ranges_witness :
    0 ≤ (compute_full_irt tWit sqrt_model (-(1/20)) 0 (5 : ℚ) (7 : ℚ) 100 (-2) 0
          (some 50)).probability ∧
    (compute_full_irt tWit sqrt_model (-(1/20)) 0 (5 : ℚ) (7 : ℚ) 100 (-2) 0
          (some 50)).probability ≤ 1 ∧
    -3 ≤ (compute_full_irt tWit sqrt_model (-(1/20)) 0 (5 : ℚ) (7 : ℚ) 100 (-2) 0
          (some 50)).adjusted_theta ∧
    (compute_full_irt tWit sqrt_model (-(1/20)) 0 (5 : ℚ) (7 : ℚ) 100 (-2) 0
          (some 50)).adjusted_theta ≤ 3 :=
  C7_full_irt_ranges_amended tWit sqrt_model (-(1/20)) 0 (5 : ℚ) (7 : ℚ) 100 (-2) 0
    (some 50) tWit_abs_le

/-- C7, counterexample to the claim as frozen: the claim also asserts that
*every numeric stage clamps to its domain before the next stage runs*, but at
`theta = 3`, `success_count = 100`, `fail_count = 0` (with the source's
default-path rank bonus `-0.05` and achievement score `0`) the
bonus-integration stage produces `3 - 0.05 + 0.12 = 3.07 ∉ [-3, 3]`, which is
fed unclamped into the confidence-weighting stage.  The final output is still
in range (`sqrt_model 1 = 1 = math.sqrt(1.0)` makes the Pro-tier bonus exactly
`0.12`). -/
theorem C7_stage_clamp_cex :
    full_irt_theta_after_bonus sqrt_model (-(1/20)) 0 3 100 0 = 307/100 ∧
    ¬ (full_irt_theta_after_bonus sqrt_model (-(1/20)) 0 3 100 0 ≤ 3) ∧
    (compute_full_irt tWit sqrt_model (-(1/20)) 0 3 (1/2) 100 0 1 none).adjusted_theta ≤ 3 := by
  have h : full_irt_theta_after_bonus sqrt_model (-(1/20)) 0 3 100 0 = 307/100 := by
    norm_num [full_irt_theta_after_bonus, get_success_rate, get_fail_rate, update_ability,
      irt_clamp, sqrt_model, qmax, qmin, pyround, roundHalfEven]
  have hfinal : (compute_full_irt tWit sqrt_model (-(1/20)) 0 3 (1/2) 100 0 1
      none).adjusted_theta = pyround 3 (irt_clamp
        (full_irt_theta_after_bonus sqrt_model (-(1/20)) 0 3 100 0 *
          compute_confidence (get_success_rate sqrt_model 100).2.1
            (get_fail_rate sqrt_model 0).2.1 * (1 - (1/100) * ((1 : ℤ) : ℚ)))) := by
    show apply_learning_decay (1/100) _ 1 = _
    unfold apply_learning_decay
    norm_num
  refine ⟨h, by rw [h]; norm_num, ?_⟩
  rw [hfinal]
  exact (pyround_clamp3_mem _).2

/-! ## `Puzzel_Based.py` -/

/-- The fields of the `run_puzzle_adjustment` result that the claims are about:
`Summary.Predicted_Success_Probability` (= `round(probability, 3)`),
`Summary.Student_Skill` (= `round(adjusted_theta, 3)`), `Summary.New_Beta`
(= the DDA response `beta_new`), and the updated DDA state. -/
structure PuzzleResult where
  predicted_probability : ℚ
  student_skill : ℚ
  new_beta : ℚ
  state : DDAState

/-- `Puzzel_Based.run_puzzle_adjustment` (without the pure-result cache, which
only affects repeated identical calls).  The module-level `_dda_system` is
`DDASystem(stability_threshold=0.05, momentum_factor=0.6)`; its state is
passed in explicitly. -/
def run_puzzle_adjustment (t s : ℚ → ℚ) (st : DDAState) (theta beta_old : ℚ)
    (completed_achievements success_count fail_count : ℤ)
    (target_performance adjustment_rate : ℚ) : PuzzleResult :=
  let theta1 := irt_clamp theta
  let b1 := clamp_beta beta_old
  let tp := qmax 0 (qmin 1 target_performance)
  let rate := qmax 0 (qmin 1 adjustment_rate)
  let sc := if success_count < 0 then 0 else success_count
  let fc := if fail_count < 0 then 0 else fail_count
  let ca := if completed_achievements < 0 then 0 else completed_achievements
  let irt := irt_probability t s theta1 b1 ca sc fc
  let res := adjust_difficulty t st b1 ⟨irt.probability, irt.adjusted_theta⟩
    (fetch_success_metrics s sc) (fetch_fail_metrics s fc) tp rate
  ⟨pyround 3 irt.probability, pyround 3 irt.adjusted_theta, res.1.beta_new, res.2⟩

/-! ### Helper evaluations of the tier functions -/

theorem pyround_eq_of_bounds (n : ℕ) (x : ℚ) (m : ℤ) (v : ℚ)
    (h1 : (m : ℚ) - 1/2 < x * 10 ^ n) (h2 : x * 10 ^ n < (m : ℚ) + 1/2)
    (h3 : (m : ℚ) / 10 ^ n = v) : pyround n x = v := by
  unfold pyround
  rw [roundHalfEven_eq m _ h1 h2, h3]

theorem get_success_rate_zero (s : ℚ → ℚ) (hs0 : s 0 = 0) :
    get_success_rate s 0 = ("Beginner", 0, 0) := by
  unfold get_success_rate
  norm_num [qmin, hs0, pyround, roundHalfEven]

theorem get_fail_rate_zero (s : ℚ → ℚ) (hs0 : s 0 = 0) :
    get_fail_rate s 0 = ("Minimal Failure", 0, 0) := by
  unfold get_fail_rate
  norm_num [qmin, hs0, pyround, roundHalfEven]

theorem get_success_rate_five (s : ℚ → ℚ) (hlo : 2226/10000 ≤ s (1/20))
    (hhi : s (1/20) ≤ 2273/10000) :
    get_success_rate s 5 = ("Newbie", 1/20, 49/2000) := by
  unfold get_success_rate
  norm_num [qmin]
  constructor
  · refine pyround_eq_of_bounds 4 _ 500 _ ?_ ?_ ?_ <;> push_cast <;> norm_num
  · refine pyround_eq_of_bounds 4 _ 245 _ ?_ ?_ ?_
    · push_cast
      linarith
    · push_cast
      linarith
    · norm_num

theorem get_fail_rate_five (s : ℚ → ℚ) (hlo : 2226/10000 ≤ s (1/20))
    (hhi : s (1/20) ≤ 2273/10000) :
    get_fail_rate s 5 = ("Low Failure", 1/20, 49/2000) := by
  unfold get_fail_rate
  norm_num [qmin]
  constructor
  · refine pyround_eq_of_bounds 4 _ 500 _ ?_ ?_ ?_ <;> push_cast <;> norm_num
  · refine pyround_eq_of_bounds 4 _ 245 _ ?_ ?_ ?_
    · push_cast
      linarith
    · push_cast
      linarith
    · norm_num

theorem fetch_success_metrics_zero (s : ℚ → ℚ) (hs0 : s 0 = 0) :
    fetch_success_metrics s 0 = ⟨"Beginner", 0, 0, 0⟩ := by
  unfold fetch_success_metrics
  rw [get_success_rate_zero s hs0]
  norm_num [qmin, pyround, roundHalfEven]

theorem fetch_fail_metrics_zero (s : ℚ → ℚ) (hs0 : s 0 = 0) :
    fetch_fail_metrics s 0 = ⟨"Minimal Failure", 0, 0, 0⟩ := by
  unfold fetch_fail_metrics
  rw [get_fail_rate_zero s hs0]
  norm_num [qmin, pyround, roundHalfEven]

theorem fetch_success_metrics_five (s : ℚ → ℚ) (hlo : 2226/10000 ≤ s (1/20))
    (hhi : s (1/20) ≤ 2273/10000) :
    fetch_success_metrics s 5 = ⟨"Newbie", 1/20, 37/500, 49/2000⟩ := by
  unfold fetch_success_metrics
  rw [get_success_rate_five s hlo hhi]
  norm_num [qmin, pyround, roundHalfEven]

theorem fetch_fail_metrics_five (s : ℚ → ℚ) (hlo : 2226/10000 ≤ s (1/20))
    (hhi : s (1/20) ≤ 2273/10000) :
    fetch_fail_metrics s 5 = ⟨"Low Failure", 1/20, 49/2000, 37/500⟩ := by
  unfold fetch_fail_metrics
  rw [get_fail_rate_five s hlo hhi]
  norm_num [qmin, pyround, roundHalfEven]

/-! ### Claim C3 — the end-to-end example -/

theorem clamp_beta_eq_self (p : ℚ) (h1 : BETA_MIN ≤ p) (h2 : p ≤ BETA_MAX) :
    clamp_beta p = p := by
  unfold clamp_beta
  rw [if_neg (by linarith), if_neg (by linarith)]

/-- On a fresh controller (`previous_beta = none`, `momentum = 0`,
`DDASystem(0.05, 0.6)`) whose stability gate passes, the final adjustment is
`raw · (1 + behaviourWeight·0.3) · 1.2`. -/
theorem dda_final_adjustment_fresh (prob theta : ℚ) (sm : SuccessMetrics)
    (fm : FailMetrics) (tp rate : ℚ)
    (hgate : ¬ |tp - prob| < 1/20) :
    dda_final_adjustment ⟨none, 0, 1/20, 3/5⟩ (1/2) ⟨prob, theta⟩ sm fm tp rate =
      (rate * (tp - prob) * calculate_sensitivity theta) *
        (1 + calculate_behavior_weight sm fm * (3/10)) * (6/5) := by
  simp only [dda_final_adjustment, slow_if_recently_stable, apply_momentum, momentum_next,
    dda_gated, enforce_stability_gate, apply_behavior_weight, qabs_eq]
  rw [if_neg hgate]
  ring

/-- On a fresh `DDASystem(0.05, 0.6)` at old beta `0.5` with target `0.7` and
rate `0.1`: if the final adjustment lands in `[1/40, 1/10]` and the snapshot
probability is below the perfect-performance threshold, the reported
(3-decimal-rounded) new beta is at least `0.5003`. -/
theorem dda_fresh_pushes_above_half (t : ℚ → ℚ)
    (ht3 : ∀ x, 1/40 ≤ x → x ≤ 1/10 → 1/1000 ≤ t x)
    (snap : IRTSnapshot) (sm : SuccessMetrics) (fm : FailMetrics)
    (hadj_lo : 1/40 ≤ dda_final_adjustment ⟨none, 0, 1/20, 3/5⟩ (1/2) snap sm fm (7/10) (1/10))
    (hadj_hi : dda_final_adjustment ⟨none, 0, 1/20, 3/5⟩ (1/2) snap sm fm (7/10) (1/10) ≤ 1/10)
    (hp : snap.probability < 99/100) :
    1/2 + 3/10000 ≤
      (adjust_difficulty t ⟨none, 0, 1/20, 3/5⟩ (1/2) snap sm fm (7/10) (1/10)).1.beta_new := by
  have hbs : sanitize_beta (1/2) = 1/2 := by
    norm_num [sanitize_beta, clamp_beta, BETA_MIN, BETA_MAX]
  have ht := ht3 _ hadj_lo hadj_hi
  have hadj_eq : dda_final_adjustment ⟨none, 0, 1/20, 3/5⟩ (sanitize_beta (1/2)) snap sm fm
      (7/10) (1/10) = dda_final_adjustment ⟨none, 0, 1/20, 3/5⟩ (1/2) snap sm fm (7/10) (1/10) := by
    rw [hbs]
  have hprop_lo : 1/2 + 1/1250 ≤ propose_beta t (sanitize_beta (1/2))
      (dda_final_adjustment ⟨none, 0, 1/20, 3/5⟩ (sanitize_beta (1/2)) snap sm fm (7/10) (1/10)) := by
    rw [hadj_eq, hbs]
    unfold propose_beta clamp_beta BETA_MIN BETA_MAX
    split
    · rename_i hcond
      linarith
    · split
      · norm_num
      · linarith
  have hprop_hi : propose_beta t (sanitize_beta (1/2))
      (dda_final_adjustment ⟨none, 0, 1/20, 3/5⟩ (sanitize_beta (1/2)) snap sm fm (7/10) (1/10)) ≤
      BETA_MAX := by
    unfold propose_beta
    exact (clamp_beta_mem _).2
  have hcap_lo : 1/2 + 1/1250 ≤
      dda_capped t ⟨none, 0, 1/20, 3/5⟩ (1/2) snap sm fm (7/10) (1/10) := by
    show 1/2 + 1/1250 ≤ cap_step (sanitize_beta (1/2)) _
    rw [hbs] at hprop_lo hprop_hi ⊢
    unfold cap_step
    simp only [qabs_eq]
    split
    · rename_i hbig
      rw [if_pos (by unfold BETA_MAX at hprop_hi; linarith)]
      norm_num [clamp_beta, BETA_MIN, BETA_MAX, MAX_BETA_STEP]
    · rw [clamp_beta_eq_self _ (by unfold BETA_MIN; linarith) hprop_hi]
      exact hprop_lo
  have hguard : dda_beta_new t ⟨none, 0, 1/20, 3/5⟩ (1/2) snap sm fm (7/10) (1/10) =
      dda_capped t ⟨none, 0, 1/20, 3/5⟩ (1/2) snap sm fm (7/10) (1/10) := by
    unfold dda_beta_new preserve_on_perfect_performance
    rw [if_neg]
    intro hcontra
    linarith [hcontra.1]
  have hbn_lo : 1/2 + 1/1250 ≤ dda_beta_new t ⟨none, 0, 1/20, 3/5⟩ (1/2) snap sm fm
      (7/10) (1/10) := by
    rw [hguard]
    exact hcap_lo
  have hresp : (adjust_difficulty t ⟨none, 0, 1/20, 3/5⟩ (1/2) snap sm fm
      (7/10) (1/10)).1.beta_new =
      pyround 3 (dda_beta_new t ⟨none, 0, 1/20, 3/5⟩ (1/2) snap sm fm (7/10) (1/10)) := rfl
  rw [hresp]
  have hr := pyround_sub_le 3 (dda_beta_new t ⟨none, 0, 1/20, 3/5⟩ (1/2) snap sm fm (7/10) (1/10))
  rw [abs_le] at hr
  have := hr.1
  norm_num at this ⊢
  linarith

/-- C3, amended.  With ability 0, difficulty 0.5, target 0.7, rate 0.1 and a
freshly constructed controller, the modelled probability is ≈ 0.3 (within
0.005) — not ≈ 0.2 / ≈ 0.8 as frozen, because `compute_probability` depends
only on theta and beta, which are identical in the two scenarios — and BOTH
scenarios (successes 0/failures 5, and successes 5/failures 0) return a
difficulty strictly above 0.5: the modelled probability stays below the 0.7
target, so the controller raises difficulty in both cases.  Hypotheses on `t`
and `s` are numeric facts of `math.tanh` / `math.sqrt`. -/
theorem C3_puzzle_example_amended (t s : ℚ → ℚ)
    (ht1 : -(41/100) < t (-(17/40))) (ht2 : t (-(17/40)) < -(2/5))
    (ht3 : ∀ x, 1/40 ≤ x → x ≤ 1/10 → 1/1000 ≤ t x)
    (hs0 : s 0 = 0) (hs5lo : 2226/10000 ≤ s (1/20)) (hs5hi : s (1/20) ≤ 2273/10000) :
    (|(run_puzzle_adjustment t s ⟨none, 0, 1/20, 3/5⟩ 0 (1/2) 0 0 5
        (7/10) (1/10)).predicted_probability - 3/10| ≤ 1/200 ∧
      1/2 < (run_puzzle_adjustment t s ⟨none, 0, 1/20, 3/5⟩ 0 (1/2) 0 0 5
        (7/10) (1/10)).new_beta) ∧
    (|(run_puzzle_adjustment t s ⟨none, 0, 1/20, 3/5⟩ 0 (1/2) 0 5 0
        (7/10) (1/10)).predicted_probability - 3/10| ≤ 1/200 ∧
      1/2 < (run_puzzle_adjustment t s ⟨none, 0, 1/20, 3/5⟩ 0 (1/2) 0 5 0
        (7/10) (1/10)).new_beta) := by
  have hp1 : 59/200 < (1/2) * (1 + t (-(17/40))) := by linarith
  have hp2 : (1/2) * (1 + t (-(17/40))) < 3/10 := by linarith
  have e0 : clamp_beta (1/2 : ℚ) = 1/2 := by norm_num [clamp_beta, BETA_MIN, BETA_MAX]
  have etp : qmax 0 (qmin 1 ((7:ℚ)/10)) = 7/10 := by norm_num [qmax, qmin]
  have erate : qmax 0 (qmin 1 ((1:ℚ)/10)) = 1/10 := by norm_num [qmax, qmin]
  have hprob_mem : ∀ q : ℚ, 59/200 < q → q < 3/10 → |pyround 3 q - 3/10| ≤ 1/200 := by
    intro q hq1 hq2
    have hlow : ((295 : ℤ) : ℚ) / 10 ^ 3 ≤ pyround 3 q :=
      le_pyround_of_le 3 q 295 (by push_cast; linarith)
    have hhigh : pyround 3 q ≤ ((300 : ℤ) : ℚ) / 10 ^ 3 :=
      pyround_le_of_le 3 q 300 (by push_cast; linarith)
    push_cast at hlow hhigh
    rw [abs_le]
    constructor <;> linarith
  have hgate : ¬ |(7:ℚ)/10 - (1/2) * (1 + t (-(17/40)))| < 1/20 := by
    rw [abs_of_nonneg (by linarith)]
    intro hcontra
    linarith
  -- Scenario 1: successes 0, failures 5.
  have hirt1 : irt_probability t s (irt_clamp 0) (1/2) 0 0 5 =
      ⟨(1/2) * (1 + t (-(17/40))), -(199/2000), 19/20, 0, 1/20⟩ := by
    norm_num [irt_probability, get_rank_data_default, update_ability, irt_clamp, sigmoid,
      compute_confidence, clamp_beta, BETA_MIN, BETA_MAX, qmax, qmin, qabs, pyround,
      roundHalfEven, get_success_rate_zero s hs0, get_fail_rate_five s hs5lo hs5hi]
  have hsens1 : calculate_sensitivity (-(199/2000)) = 12199/12000 := by
    norm_num [calculate_sensitivity, qmax, qmin]
  have hbw1 : calculate_behavior_weight ⟨"Beginner", 0, 0, 0⟩
      ⟨"Low Failure", 1/20, 49/2000, 37/500⟩ = -(49/4000) := by
    norm_num [calculate_behavior_weight]
  have hF1 := dda_final_adjustment_fresh ((1/2) * (1 + t (-(17/40)))) (-(199/2000))
    ⟨"Beginner", 0, 0, 0⟩ ⟨"Low Failure", 1/20, 49/2000, 37/500⟩ (7/10) (1/10) hgate
  rw [hsens1, hbw1] at hF1
  have hup1 := dda_fresh_pushes_above_half t ht3
    ⟨(1/2) * (1 + t (-(17/40))), -(199/2000)⟩ ⟨"Beginner", 0, 0, 0⟩
    ⟨"Low Failure", 1/20, 49/2000, 37/500⟩
    (by rw [hF1]; nlinarith) (by rw [hF1]; nlinarith) (by show (1/2) * _ < 99/100; linarith)
  have hrun1 : run_puzzle_adjustment t s ⟨none, 0, 1/20, 3/5⟩ 0 (1/2) 0 0 5 (7/10) (1/10) =
      ⟨pyround 3 ((1/2) * (1 + t (-(17/40)))), pyround 3 (-(199/2000)),
       (adjust_difficulty t ⟨none, 0, 1/20, 3/5⟩ (1/2)
         ⟨(1/2) * (1 + t (-(17/40))), -(199/2000)⟩ ⟨"Beginner", 0, 0, 0⟩
         ⟨"Low Failure", 1/20, 49/2000, 37/500⟩ (7/10) (1/10)).1.beta_new,
       (adjust_difficulty t ⟨none, 0, 1/20, 3/5⟩ (1/2)
         ⟨(1/2) * (1 + t (-(17/40))), -(199/2000)⟩ ⟨"Beginner", 0, 0, 0⟩
         ⟨"Low Failure", 1/20, 49/2000, 37/500⟩ (7/10) (1/10)).2⟩ := by
    simp only [run_puzzle_adjustment]
    norm_num [e0, etp, erate, hirt1, fetch_success_metrics_zero s hs0,
      fetch_fail_metrics_five s hs5lo hs5hi]
  -- Scenario 2: successes 5, failures 0.
  have hirt2 : irt_probability t s (irt_clamp 0) (1/2) 0 5 0 =
      ⟨(1/2) * (1 + t (-(17/40))), -(1/2000), 19/20, 1/20, 0⟩ := by
    norm_num [irt_probability, get_rank_data_default, update_ability, irt_clamp, sigmoid,
      compute_confidence, clamp_beta, BETA_MIN, BETA_MAX, qmax, qmin, qabs, pyround,
      roundHalfEven, get_success_rate_five s hs5lo hs5hi, get_fail_rate_zero s hs0]
  have hsens2 : calculate_sensitivity (-(1/2000)) = 12001/12000 := by
    norm_num [calculate_sensitivity, qmax, qmin]
  have hbw2 : calculate_behavior_weight ⟨"Newbie", 1/20, 37/500, 49/2000⟩
      ⟨"Minimal Failure", 0, 0, 0⟩ = 149/2500 := by
    norm_num [calculate_behavior_weight]
  have hF2 := dda_final_adjustment_fresh ((1/2) * (1 + t (-(17/40)))) (-(1/2000))
    ⟨"Newbie", 1/20, 37/500, 49/2000⟩ ⟨"Minimal Failure", 0, 0, 0⟩ (7/10) (1/10) hgate
  rw [hsens2, hbw2] at hF2
  have hup2 := dda_fresh_pushes_above_half t ht3
    ⟨(1/2) * (1 + t (-(17/40))), -(1/2000)⟩ ⟨"Newbie", 1/20, 37/500, 49/2000⟩
    ⟨"Minimal Failure", 0, 0, 0⟩
    (by rw [hF2]; nlinarith) (by rw [hF2]; nlinarith) (by show (1/2) * _ < 99/100; linarith)
  have hrun2 : run_puzzle_adjustment t s ⟨none, 0, 1/20, 3/5⟩ 0 (1/2) 0 5 0 (7/10) (1/10) =
      ⟨pyround 3 ((1/2) * (1 + t (-(17/40)))), pyround 3 (-(1/2000)),
       (adjust_difficulty t ⟨none, 0, 1/20, 3/5⟩ (1/2)
         ⟨(1/2) * (1 + t (-(17/40))), -(1/2000)⟩ ⟨"Newbie", 1/20, 37/500, 49/2000⟩
         ⟨"Minimal Failure", 0, 0, 0⟩ (7/10) (1/10)).1.beta_new,
       (adjust_difficulty t ⟨none, 0, 1/20, 3/5⟩ (1/2)
         ⟨(1/2) * (1 + t (-(17/40))), -(1/2000)⟩ ⟨"Newbie", 1/20, 37/500, 49/2000⟩
         ⟨"Minimal Failure", 0, 0, 0⟩ (7/10) (1/10)).2⟩ := by
    simp only [run_puzzle_adjustment]
    norm_num [e0, etp, erate, hirt2, fetch_success_metrics_five s hs5lo hs5hi,
      fetch_fail_metrics_zero s hs0]
  rw [hrun1, hrun2]
  refine ⟨⟨hprob_mem _ hp1 hp2, by linarith [hup1]⟩, ⟨hprob_mem _ hp1 hp2, by linarith [hup2]⟩⟩

/-- C3, witness for the amended theorem, instantiating `t` with `tWit` and `s`
with `sqrt_model` (all hypotheses are numeric facts these stand-ins share with
`math.tanh` / `math.sqrt`). -/
theorem C3_puzzle_example_witness :
    (|(run_puzzle_adjustment tWit sqrt_model ⟨none, 0, 1/20, 3/5⟩ 0 (1/2) 0 0 5
        (7/10) (1/10)).predicted_probability - 3/10| ≤ 1/200 ∧
      1/2 < (run_puzzle_adjustment tWit sqrt_model ⟨none, 0, 1/20, 3/5⟩ 0 (1/2) 0 0 5
        (7/10) (1/10)).new_beta) ∧
    (|(run_puzzle_adjustment tWit sqrt_model ⟨none, 0, 1/20, 3/5⟩ 0 (1/2) 0 5 0
        (7/10) (1/10)).predicted_probability - 3/10| ≤ 1/200 ∧
      1/2 < (run_puzzle_adjustment tWit sqrt_model ⟨none, 0, 1/20, 3/5⟩ 0 (1/2) 0 5 0
        (7/10) (1/10)).new_beta) :=
  C3_puzzle_example_amended tWit sqrt_model
    (by norm_num [tWit, qmax, qmin]) (by norm_num [tWit, qmax, qmin]) tWit_small_lower
    (by norm_num [sqrt_model]) (by norm_num [sqrt_model]) (by norm_num [sqrt_model])

/-- C3, counterexample to the claim as frozen: in the second scenario
(successes 5, failures 0) the reported probability is `0.298`, not ≈ 0.8, and
the resulting difficulty is strictly ABOVE 0.5, not below it. -/
theorem C3_puzzle_example_cex :
    (run_puzzle_adjustment tWit sqrt_model ⟨none, 0, 1/20, 3/5⟩ 0 (1/2) 0 5 0
      (7/10) (1/10)).predicted_probability = 149/500 ∧
    ¬ (|(run_puzzle_adjustment tWit sqrt_model ⟨none, 0, 1/20, 3/5⟩ 0 (1/2) 0 5 0
        (7/10) (1/10)).predicted_probability - 4/5| ≤ 1/20) ∧
    ¬ ((run_puzzle_adjustment tWit sqrt_model ⟨none, 0, 1/20, 3/5⟩ 0 (1/2) 0 5 0
        (7/10) (1/10)).new_beta < 1/2) := by
  have hirt2 : irt_probability tWit sqrt_model (irt_clamp 0) (1/2) 0 5 0 =
      ⟨1092727/3664080, -(1/2000), 19/20, 1/20, 0⟩ := by
    norm_num [irt_probability, get_rank_data_default, update_ability, irt_clamp, sigmoid,
      compute_confidence, clamp_beta, BETA_MIN, BETA_MAX, tWit, qmax, qmin, qabs, pyround,
      roundHalfEven, sqrt_model, get_success_rate, get_fail_rate]
  have e0 : clamp_beta (1/2 : ℚ) = 1/2 := by norm_num [clamp_beta, BETA_MIN, BETA_MAX]
  have etp : qmax 0 (qmin 1 ((7:ℚ)/10)) = 7/10 := by norm_num [qmax, qmin]
  have erate : qmax 0 (qmin 1 ((1:ℚ)/10)) = 1/10 := by norm_num [qmax, qmin]
  have hrun2 : run_puzzle_adjustment tWit sqrt_model ⟨none, 0, 1/20, 3/5⟩ 0 (1/2) 0 5 0
      (7/10) (1/10) =
      ⟨pyround 3 (1092727/3664080), pyround 3 (-(1/2000)),
       (adjust_difficulty tWit ⟨none, 0, 1/20, 3/5⟩ (1/2)
         ⟨1092727/3664080, -(1/2000)⟩ ⟨"Newbie", 1/20, 37/500, 49/2000⟩
         ⟨"Minimal Failure", 0, 0, 0⟩ (7/10) (1/10)).1.beta_new,
       (adjust_difficulty tWit ⟨none, 0, 1/20, 3/5⟩ (1/2)
         ⟨1092727/3664080, -(1/2000)⟩ ⟨"Newbie", 1/20, 37/500, 49/2000⟩
         ⟨"Minimal Failure", 0, 0, 0⟩ (7/10) (1/10)).2⟩ := by
    simp only [run_puzzle_adjustment]
    norm_num [e0, etp, erate, hirt2,
      fetch_success_metrics_five sqrt_model (by norm_num [sqrt_model]) (by norm_num [sqrt_model]),
      fetch_fail_metrics_zero sqrt_model (by norm_num [sqrt_model])]
  rw [hrun2]
  refine ⟨?_, ?_, ?_⟩
  · norm_num [pyround, roundHalfEven]
  · norm_num [pyround, roundHalfEven]
    rw [abs_of_pos] <;> norm_num
  · norm_num [adjust_difficulty, dda_beta_new, dda_capped, dda_final_adjustment, dda_gated,
      preserve_on_perfect_performance, cap_step, propose_beta, slow_if_recently_stable,
      apply_momentum, momentum_next, enforce_stability_gate, apply_behavior_weight,
      calculate_behavior_weight, calculate_sensitivity, sanitize_beta, clamp_beta,
      tWit, qmax, qmin, qabs, pyround, roundHalfEven, BETA_MIN, BETA_MAX, MAX_BETA_STEP]

/-! ## `KMeans_Cluster.py`

`random.random()` and `random.choice(...)` are modelled by an oracle
`RandSrc`: `rand i` is the value of the `i`-th `random.random()` draw and
`choice i` picks the index (taken modulo the list length) of the `i`-th
`random.choice(...)` call.  Every call site reads a fresh counter value, so
every concrete execution of the Python code is an instance of some oracle,
and theorems quantified over the oracle cover all executions. -/

structure RandSrc where
  rand : ℕ → ℚ
  choice : ℕ → ℕ

/-- `random.choice(l)` under the oracle (`l` nonempty at every call site). -/
def py_choice (r : RandSrc) (cnt : ℕ) (l : List (List ℚ)) : List ℚ :=
  l.getD (r.choice cnt % l.length) []

/-- `KMeans_Cluster.squared_distance` (zip-truncating, like Python `zip`). -/
def squared_distance (a b : List ℚ) : ℚ :=
  ((a.zip b).map (fun p => (p.1 - p.2) ^ 2)).sum

/-- `KMeans_Cluster.compute_centroid`: per-coordinate mean over the dimensions
of the first point (coordinates read as `getD i 0`, which agrees with the
Python `point[i]` on the uniform-dimension inputs the pipeline produces). -/
def compute_centroid (points : List (List ℚ)) : List ℚ :=
  match points with
  | [] => []
  | p0 :: _ =>
    (List.range p0.length).map
      (fun i => ((points.map (fun p => p.getD i 0)).sum) * (1 / (points.length : ℚ)))

/-- `KMeans_Cluster.normalize_data`: per-dimension min-max scaling; a
zero-range dimension maps to 0. -/
def normalize_data (data : List (List ℚ)) : List (List ℚ) :=
  match data with
  | [] => []
  | d0 :: rest =>
    let mins := rest.foldl (fun m pt => m.zipWith qmin pt) d0
    let maxs := rest.foldl (fun m pt => m.zipWith qmax pt) d0
    let ranges := List.zipWith (fun mn mx => mx - mn) mins maxs
    data.map (fun pt =>
      List.zipWith (fun pr rg => if rg = 0 then 0 else (pr.1 - pr.2) / rg) (pt.zip mins) ranges)

/-- Minimum squared distance from `pt` to a nonempty list of centroids
(Python folds with `float('inf')`; on an empty list we return 0, which no
call site reaches). -/
def min_sq_dist (pt : List ℚ) : List (List ℚ) → ℚ
  | [] => 0
  | c :: cs => cs.foldl (fun acc c2 => qmin acc (squared_distance pt c2)) (squared_distance pt c)

/-- The cumulative-weight scan of `init_kmeans_plus_plus` (first index whose
running total reaches `rv`). -/
def pick_index_aux (rv : ℚ) : List ℚ → ℚ → ℕ → Option ℕ
  | [], _, _ => none
  | d :: ds, cum, i => if rv ≤ cum + d then some i else pick_index_aux rv ds (cum + d) (i + 1)

/-- The `while len(centroids) < k` loop of `init_kmeans_plus_plus`.  Each
pass appends exactly one centroid (or stops in the degenerate-total branch),
so fuel `k` always suffices. -/
def kpp_next (r : RandSrc) (data : List (List ℚ)) (cnt : ℕ)
    (cents : List (List ℚ)) : List ℚ :=
  match pick_index_aux (r.rand cnt * (data.map (fun pt => min_sq_dist pt cents)).sum)
      (data.map (fun pt => min_sq_dist pt cents)) 0 0 with
  | some i => data.getD i []
  | none => (data.getLast?).getD []

def kpp_loop (r : RandSrc) (data : List (List ℚ)) (k : ℕ) (fuel cnt : ℕ)
    (cents : List (List ℚ)) : List (List ℚ) :=
  if hf : fuel = 0 then cents
  else if cents.length < k then
    if (data.map (fun pt => min_sq_dist pt cents)).sum = 0 ∨
        (data.map (fun pt => min_sq_dist pt cents)).sum < 1/10000000000 then
      if data.filter (fun pt => pt ∉ cents) = [] then cents
      else cents ++ [py_choice r cnt (data.filter (fun pt => pt ∉ cents))]
    else
      kpp_loop r data k (fuel - 1) (cnt + 1) (cents ++ [kpp_next r data cnt cents])
  else cents
termination_by fuel
decreasing_by omega

/-- `KMeans_Cluster.init_kmeans_plus_plus`. -/
def init_kmeans_plus_plus (r : RandSrc) (data : List (List ℚ)) (k : ℕ) : List (List ℚ) :=
  if data = [] then []
  else if data.length ≤ k then data
  else kpp_loop r data k k 1 [py_choice r 0 data]

/-- The assignment scan of the main loop: Python tracks
`(nearest, min_dist_sq)` starting from `(0, inf)` and updates on strict
decrease. -/
def nearest_scan (pt : List ℚ) : List (List ℚ) → ℕ → ℕ × Option ℚ → ℕ × Option ℚ
  | [], _, acc => acc
  | c :: cs, i, acc =>
    let d := squared_distance pt c
    match acc.2 with
    | none => nearest_scan pt cs (i + 1) (i, some d)
    | some m => if d < m then nearest_scan pt cs (i + 1) (i, some d)
                else nearest_scan pt cs (i + 1) acc

/-- Index of the nearest centroid (ties to the lowest index). -/
def nearest_index (cents : List (List ℚ)) (pt : List ℚ) : ℕ :=
  (nearest_scan pt cents 0 (0, none)).1

/-- One centroid-update step of `kmeans_from_irt` (lines 177-184): rebuild
each of the `k` clusters from the current assignment; an empty cluster is
reseeded with a random data point. -/
def kmeans_step (r : RandSrc) (cnt : ℕ) (data : List (List ℚ)) (k : ℕ)
    (cents : List (List ℚ)) : List (List ℚ) :=
  (List.range k).map (fun j =>
    let cluster := data.filter (fun pt => nearest_index cents pt = j)
    if cluster = [] then py_choice r (cnt + j) data else compute_centroid cluster)

/-- `sum(squared_distance(a, b) for a, b in zip(centroids, new_centroids))`. -/
def shift_sq (a b : List (List ℚ)) : ℚ :=
  ((a.zip b).map (fun p => squared_distance p.1 p.2)).sum

/-- The `for iteration in range(max_iter)` loop of `kmeans_from_irt`,
returning `(centroids, assignments, converged_after)`. -/
def kmeans_loop (r : RandSrc) (data : List (List ℚ)) (k : ℕ) (tol : ℚ)
    (fuel it : ℕ) (cents : List (List ℚ)) : List (List ℚ) × List ℕ × ℕ :=
  if hf : fuel = 0 then (cents, [], it)
  else if shift_sq cents (kmeans_step r (k + 1 + it * k) data k cents) < tol ^ 2 then
    (cents, data.map (nearest_index cents), it + 1)
  else if 5 < it ∧ shift_sq cents (kmeans_step r (k + 1 + it * k) data k cents) < tol ^ 2 * 10 then
    (kmeans_step r (k + 1 + it * k) data k cents, data.map (nearest_index cents), it + 1)
  else if fuel = 1 then
    (kmeans_step r (k + 1 + it * k) data k cents, data.map (nearest_index cents), it + 1)
  else
    kmeans_loop r data k tol (fuel - 1) (it + 1) (kmeans_step r (k + 1 + it * k) data k cents)
termination_by fuel
decreasing_by omega

/-- The four features `kmeans_from_irt` extracts from an IRT record. -/
structure IrtRecord where
  adjusted_theta : ℚ
  probability : ℚ
  success_rate : ℚ
  fail_rate : ℚ

def irt_features (rec : IrtRecord) : List ℚ :=
  [rec.adjusted_theta, rec.probability, rec.success_rate, rec.fail_rate]

structure KMeansResult where
  centroids : List (List ℚ)
  assignments : List ℕ
  cluster_count : ℕ
  converged_after : ℕ

/-- `KMeans_Cluster.kmeans_from_irt`; the `ValueError` on an empty batch is
modelled as `Except.error`. -/
def kmeans_from_irt (r : RandSrc) (irt_data : List IrtRecord) (k max_iter : ℕ)
    (tol : ℚ) : Except String KMeansResult :=
  let data_points := irt_data.map irt_features
  if data_points = [] then
    Except.error "IRT data is empty. Cannot perform K-Means clustering."
  else
    let nd := normalize_data data_points
    let cents := init_kmeans_plus_plus r nd k
    let res := kmeans_loop r nd k tol max_iter 0 cents
    Except.ok ⟨res.1, res.2.1, k, res.2.2⟩

/-- Total within-cluster squared distance of the assignment the loop would
build for `cents`: each point contributes its squared distance to its
assigned (nearest) centroid. -/
def sse (data : List (List ℚ)) (cents : List (List ℚ)) : ℚ :=
  (data.map (fun pt => squared_distance pt (cents.getD (nearest_index cents pt) []))).sum

/-! ### Claim C2 — number of centroids and assignment coverage -/

/-- C2, counterexample to the claim as frozen: four records whose normalized
feature vectors are NOT pairwise distinct (three coincide), `k = 3 ≤ 4`.
The k-means++ initializer picks the duplicated point and the distinct point
(this happens for the oracle below, and for every other oracle as well: after
those two picks every remaining point coincides with a chosen centroid, the
total weight collapses to 0, `remaining` is empty and the loop stops early),
so only 2 centroids are returned although `cluster_count` reports 3. -/
theorem C2_kmeans_exact_k_cex :
    (([⟨0,0,0,0⟩, ⟨0,0,0,0⟩, ⟨0,0,0,0⟩, ⟨1,1,1,1⟩] : List IrtRecord) ≠ [] ∧
      3 ≤ ([⟨0,0,0,0⟩, ⟨0,0,0,0⟩, ⟨0,0,0,0⟩, ⟨1,1,1,1⟩] : List IrtRecord).length) ∧
    kmeans_from_irt ⟨fun _ => 1/2, fun _ => 0⟩
        [⟨0,0,0,0⟩, ⟨0,0,0,0⟩, ⟨0,0,0,0⟩, ⟨1,1,1,1⟩] 3 100 (1/10000) =
      Except.ok ⟨[[0,0,0,0], [1,1,1,1]], [0,0,0,1], 3, 1⟩ ∧
    ([[(0:ℚ),0,0,0], [1,1,1,1]] : List (List ℚ)).length ≠ 3 := by
  refine ⟨⟨by simp, by norm_num⟩, ?_, by norm_num⟩
  simp only [kmeans_from_irt]
  norm_num [irt_features, normalize_data, init_kmeans_plus_plus, qmin, qmax, List.zipWith,
    py_choice, List.getD, List.cons_ne_nil]
  rw [kpp_loop.eq_def]
  norm_num [min_sq_dist, squared_distance, kpp_next, pick_index_aux, py_choice, qmin,
    List.getD, List.filter]
  rw [kpp_loop.eq_def]
  norm_num [min_sq_dist, squared_distance, kpp_next, pick_index_aux, py_choice, qmin,
    List.getD, List.filter]
  rw [kmeans_loop.eq_def]
  norm_num [kmeans_step, nearest_index, nearest_scan, squared_distance, compute_centroid,
    shift_sq, py_choice, List.filter, List.getD, List.range_succ, List.cons_ne_nil]

/-! ### Claim C6 — within-cluster squared distance is non-increasing -/

theorem getD_range_map {α : Type} (f : ℕ → α) (d i : ℕ) (dflt : α) (h : i < d) :
    (((List.range d).map f).getD i dflt) = f i := by
  rw [List.getD_eq_getD_get?, List.get?_map, List.get?_range h]
  rfl

theorem getD_mem {α : Type} (l : List α) (i : ℕ) (dflt : α) (h : i < l.length) :
    l.getD i dflt ∈ l := by
  rw [List.getD_eq_getD_get?, List.get?_eq_get h]
  exact List.get_mem l i h

theorem squared_distance_nonneg (a b : List ℚ) : 0 ≤ squared_distance a b := by
  unfold squared_distance
  apply List.sum_nonneg
  intro x hx
  rw [List.mem_map] at hx
  obtain ⟨p, _, hp⟩ := hx
  rw [← hp]
  positivity

theorem squared_distance_eq_sum (d : ℕ) :
    ∀ (a b : List ℚ), a.length = d → b.length = d →
      squared_distance a b = ∑ i in Finset.range d, (a.getD i 0 - b.getD i 0) ^ 2 := by
  induction d with
  | zero =>
    intro a b ha hb
    rw [List.length_eq_zero] at ha hb
    subst ha
    subst hb
    simp [squared_distance]
  | succ n ih =>
    intro a b ha hb
    match a, b with
    | x :: xs, y :: ys =>
      have hxs : xs.length = n := by simpa using ha
      have hys : ys.length = n := by simpa using hb
      have hz : squared_distance (x :: xs) (y :: ys) = (x - y) ^ 2 + squared_distance xs ys := by
        unfold squared_distance
        simp [List.zip]
      rw [hz, Finset.sum_range_succ', ih xs ys hxs hys]
      simp [List.getD_cons_succ, List.getD_cons_zero]
      ring

theorem squared_distance_eq_zero_iff (d : ℕ) (a b : List ℚ) (ha : a.length = d)
    (hb : b.length = d) (h : squared_distance a b = 0) : a = b := by
  induction d generalizing a b with
  | zero =>
    rw [List.length_eq_zero] at ha hb
    rw [ha, hb]
  | succ n ih =>
    match a, b with
    | x :: xs, y :: ys =>
      have hxs : xs.length = n := by simpa using ha
      have hys : ys.length = n := by simpa using hb
      have hz : squared_distance (x :: xs) (y :: ys) = (x - y) ^ 2 + squared_distance xs ys := by
        unfold squared_distance
        simp [List.zip]
      rw [hz] at h
      have h1 : (0:ℚ) ≤ (x - y) ^ 2 := by positivity
      have h2 := squared_distance_nonneg xs ys
      have hx0 : (x - y) ^ 2 = 0 := by linarith
      have hxy : x = y := by
        have := pow_eq_zero_iff (n := 2) (by norm_num) |>.mp hx0
        linarith [this]
      rw [hxy, ih xs ys hxs hys (by linarith)]

theorem compute_centroid_length (p0 : List ℚ) (rest : List (List ℚ)) :
    (compute_centroid (p0 :: rest)).length = p0.length := by
  unfold compute_centroid
  simp

theorem compute_centroid_getD (P : List (List ℚ)) (d i : ℕ) (hne : P ≠ [])
    (hlen : ∀ p ∈ P, p.length = d) (hi : i < d) :
    (compute_centroid P).getD i 0 = (P.map (fun p => p.getD i 0)).sum * (1 / (P.length : ℚ)) := by
  match P with
  | p0 :: rest =>
    have h0 : p0.length = d := hlen p0 (List.mem_cons_self _ _)
    unfold compute_centroid
    rw [getD_range_map _ _ _ _ (by rw [h0]; exact hi)]

theorem sum_sq_expand (xs : List ℚ) (c : ℚ) :
    (xs.map (fun x => (x - c) ^ 2)).sum =
      (xs.map (fun x => x ^ 2)).sum - 2 * c * xs.sum + (xs.length : ℚ) * c ^ 2 := by
  induction xs with
  | nil => simp
  | cons x xs ih =>
    simp only [List.map_cons, List.sum_cons, List.length_cons, ih]
    push_cast
    ring

theorem sum_sq_dev_le (xs : List ℚ) (hne : xs ≠ []) (c : ℚ) :
    (xs.map (fun x => (x - xs.sum * (1 / (xs.length : ℚ))) ^ 2)).sum ≤
      (xs.map (fun x => (x - c) ^ 2)).sum := by
  have hn : (0:ℚ) < (xs.length : ℚ) := by
    have := List.length_pos.mpr hne
    exact_mod_cast this
  rw [sum_sq_expand, sum_sq_expand]
  set mu := xs.sum * (1 / (xs.length : ℚ)) with hmu_def
  have hS : xs.sum = (xs.length : ℚ) * mu := by
    rw [hmu_def]
    field_simp
  rw [hS]
  nlinarith [mul_nonneg hn.le (sq_nonneg (c - mu))]

theorem list_finset_sum_comm {α β : Type} (l : List α) (s : Finset β) (f : α → β → ℚ) :
    (l.map (fun a => ∑ b in s, f a b)).sum = ∑ b in s, (l.map (fun a => f a b)).sum := by
  induction l with
  | nil => simp
  | cons x xs ih =>
    simp only [List.map_cons, List.sum_cons, ih]
    rw [← Finset.sum_add_distrib]

theorem centroid_min (d : ℕ) (P : List (List ℚ)) (hne : P ≠ [])
    (hlen : ∀ p ∈ P, p.length = d) (c : List ℚ) (hc : c.length = d) :
    (P.map (fun p => squared_distance p (compute_centroid P))).sum ≤
      (P.map (fun p => squared_distance p c)).sum := by
  have hclen : (compute_centroid P).length = d := by
    match P with
    | p0 :: rest =>
      rw [compute_centroid_length]
      exact hlen p0 (List.mem_cons_self _ _)
  have hL : (P.map (fun p => squared_distance p (compute_centroid P))).sum =
      ∑ i in Finset.range d,
        (P.map (fun p => (p.getD i 0 - (compute_centroid P).getD i 0) ^ 2)).sum := by
    rw [← list_finset_sum_comm]
    apply congrArg
    apply List.map_congr_left
    intro p hp
    exact squared_distance_eq_sum d p _ (hlen p hp) hclen
  have hR : (P.map (fun p => squared_distance p c)).sum =
      ∑ i in Finset.range d, (P.map (fun p => (p.getD i 0 - c.getD i 0) ^ 2)).sum := by
    rw [← list_finset_sum_comm]
    apply congrArg
    apply List.map_congr_left
    intro p hp
    exact squared_distance_eq_sum d p c (hlen p hp) hc
  rw [hL, hR]
  apply Finset.sum_le_sum
  intro i hi
  rw [Finset.mem_range] at hi
  have hmu := compute_centroid_getD P d i hne hlen hi
  rw [hmu]
  have key := sum_sq_dev_le (P.map (fun p => p.getD i 0)) (by
    intro hcontra
    exact hne (List.map_eq_nil.mp hcontra)) (c.getD i 0)
  simp only [List.map_map] at key
  have e1 : (P.map (fun p => p.getD i 0)).length = P.length := List.length_map _ _
  rw [e1] at key
  convert key using 2

theorem nearest_scan_invariant (pt : List ℚ) (cents : List (List ℚ)) :
    ∀ (cs : List (List ℚ)) (i b : ℕ) (m : ℚ),
      cents.drop i = cs → b < cents.length →
      squared_distance pt (cents.getD b []) = m →
      ∃ b2 m2, nearest_scan pt cs i (b, some m) = (b2, some m2) ∧
        b2 < cents.length ∧ squared_distance pt (cents.getD b2 []) = m2 ∧
        m2 ≤ m ∧ ∀ c ∈ cs, m2 ≤ squared_distance pt c := by
  intro cs
  induction cs with
  | nil =>
    intro i b m _ hb hm
    exact ⟨b, m, rfl, hb, hm, le_refl m, by intro c hc; cases hc⟩
  | cons c cs ih =>
    intro i b m hdrop hb hm
    have hget : cents.get? i = some c := by
      have h0 : (cents.drop i).get? 0 = some c := by rw [hdrop]; rfl
      rw [List.get?_drop] at h0
      simpa using h0
    have hi : i < cents.length := List.get?_eq_some.mp hget |>.1
    have hgetD : cents.getD i [] = c := by
      rw [List.getD_eq_getD_get?, hget]
      rfl
    have hdrop2 : cents.drop (i + 1) = cs := by
      have : cents.drop (i + 1) = (cents.drop i).drop 1 := by
        rw [List.drop_drop]
      rw [this, hdrop]
      rfl
    show ∃ b2 m2, nearest_scan pt (c :: cs) i (b, some m) = (b2, some m2) ∧ _
    unfold nearest_scan
    simp only []
    by_cases hlt : squared_distance pt c < m
    · rw [if_pos hlt]
      obtain ⟨b2, m2, heq, hb2, hm2, hle, hall⟩ :=
        ih (i + 1) i (squared_distance pt c) hdrop2 hi (by rw [hgetD])
      refine ⟨b2, m2, heq, hb2, hm2, le_trans hle (le_of_lt hlt), ?_⟩
      intro c2 hc2
      rcases List.mem_cons.mp hc2 with hc2 | hc2
      · rw [hc2]
        exact le_trans hle (le_refl _)
      · exact hall c2 hc2
    · rw [if_neg hlt]
      push_neg at hlt
      obtain ⟨b2, m2, heq, hb2, hm2, hle, hall⟩ := ih (i + 1) b m hdrop2 hb hm
      refine ⟨b2, m2, heq, hb2, hm2, hle, ?_⟩
      intro c2 hc2
      rcases List.mem_cons.mp hc2 with hc2 | hc2
      · rw [hc2]
        exact le_trans hle hlt
      · exact hall c2 hc2

theorem nearest_index_lt (cents : List (List ℚ)) (pt : List ℚ) (h : cents ≠ []) :
    nearest_index cents pt < cents.length := by
  match cents with
  | c0 :: rest =>
    unfold nearest_index nearest_scan
    simp only []
    obtain ⟨b2, m2, heq, hb2, _, _, _⟩ := nearest_scan_invariant pt (c0 :: rest) rest 1 0
      (squared_distance pt c0) rfl (by simp) (by rfl)
    rw [heq]
    exact hb2

theorem nearest_index_min (cents : List (List ℚ)) (pt : List ℚ) (h : cents ≠ []) :
    ∀ c ∈ cents,
      squared_distance pt (cents.getD (nearest_index cents pt) []) ≤ squared_distance pt c := by
  match cents with
  | c0 :: rest =>
    intro c hc
    unfold nearest_index nearest_scan
    simp only []
    obtain ⟨b2, m2, heq, hb2, hm2, hle, hall⟩ := nearest_scan_invariant pt (c0 :: rest) rest 1 0
      (squared_distance pt c0) rfl (by simp) (by rfl)
    rw [heq]
    simp only []
    rw [hm2]
    rcases List.mem_cons.mp hc with hc | hc
    · rw [hc]
      exact le_trans hle (by rfl)
    · exact hall c hc

theorem list_sum_fiberwise (data : List (List ℚ)) (g : List ℚ → ℚ) (a : List ℚ → ℕ) (k : ℕ)
    (h : ∀ pt ∈ data, a pt < k) :
    (data.map g).sum =
      ∑ j in Finset.range k, ((data.filter (fun pt => a pt = j)).map g).sum := by
  induction data with
  | nil => simp
  | cons pt data ih =>
    have hstep : ∀ j, (((pt :: data).filter (fun q => a q = j)).map g).sum =
        (if a pt = j then g pt else 0) +
          ((data.filter (fun q => a q = j)).map g).sum := by
      intro j
      by_cases haj : a pt = j
      · simp [List.filter_cons, haj]
      · simp [List.filter_cons, haj]
    rw [Finset.sum_congr rfl (fun j _ => hstep j), Finset.sum_add_distrib]
    rw [← ih (fun q hq => h q (List.mem_cons_of_mem pt hq))]
    simp only [List.map_cons, List.sum_cons]
    have hsingle : ∑ j in Finset.range k, (if a pt = j then g pt else 0) = g pt := by
      rw [Finset.sum_ite_eq (Finset.range k) (a pt) (fun _ => g pt)]
      rw [if_pos (Finset.mem_range.mpr (h pt (List.mem_cons_self pt data)))]
    rw [hsingle]

theorem kmeans_step_length (r : RandSrc) (cnt : ℕ) (data : List (List ℚ)) (k : ℕ)
    (cents : List (List ℚ)) : (kmeans_step r cnt data k cents).length = k := by
  unfold kmeans_step
  simp

theorem kmeans_step_getD (r : RandSrc) (cnt : ℕ) (data : List (List ℚ)) (k : ℕ)
    (cents : List (List ℚ)) (j : ℕ) (hj : j < k) :
    (kmeans_step r cnt data k cents).getD j [] =
      if data.filter (fun pt => nearest_index cents pt = j) = [] then py_choice r (cnt + j) data
      else compute_centroid (data.filter (fun pt => nearest_index cents pt = j)) := by
  unfold kmeans_step
  rw [getD_range_map _ _ _ _ hj]

/-- C6.  Within a run of `kmeans_from_irt`, each iteration's centroid update
(`kmeans_step`, including the random reseeding of empty clusters) does not
increase the total within-cluster squared distance, for every randomness
oracle, every data set of uniform dimension `d` and every current centroid
list of between 1 and `k` centroids (the invariant the loop maintains).
Since the loop either stops or replaces the centroids by `kmeans_step` of the
previous ones, the SSE is non-increasing from each iteration to the next
until the run stops. -/
theorem C6_sse_monotone (r : RandSrc) (cnt : ℕ) (data : List (List ℚ)) (k d : ℕ)
    (cents : List (List ℚ)) (hne : cents ≠ []) (hlen : cents.length ≤ k)
    (hdata : ∀ pt ∈ data, pt.length = d) (hcent : ∀ c ∈ cents, c.length = d) :
    sse data (kmeans_step r cnt data k cents) ≤ sse data cents := by
  have hk : 0 < k := lt_of_lt_of_le (List.length_pos.mpr hne) hlen
  have hNClen : (kmeans_step r cnt data k cents).length = k := kmeans_step_length r cnt data k cents
  have hNCne : kmeans_step r cnt data k cents ≠ [] := by
    intro hcontra
    rw [hcontra] at hNClen
    simp at hNClen
    omega
  have halt : ∀ pt ∈ data, nearest_index cents pt < k :=
    fun pt _ => lt_of_lt_of_le (nearest_index_lt cents pt hne) hlen
  -- Step A: the new assignment is at least as good as keeping the old one.
  have stepA : sse data (kmeans_step r cnt data k cents) ≤
      (data.map (fun pt =>
        squared_distance pt
          ((kmeans_step r cnt data k cents).getD (nearest_index cents pt) []))).sum := by
    unfold sse
    apply List.sum_le_sum
    intro pt hpt
    apply nearest_index_min _ pt hNCne
    apply getD_mem
    rw [hNClen]
    exact halt pt hpt
  -- Step B: regroup by old cluster and compare per cluster.
  have stepB : (data.map (fun pt =>
      squared_distance pt
        ((kmeans_step r cnt data k cents).getD (nearest_index cents pt) []))).sum ≤
      (data.map (fun pt => squared_distance pt (cents.getD (nearest_index cents pt) []))).sum := by
    rw [list_sum_fiberwise _ _ (fun pt => nearest_index cents pt) k halt,
      list_sum_fiberwise _ (fun pt => squared_distance pt (cents.getD (nearest_index cents pt) []))
        (fun pt => nearest_index cents pt) k halt]
    apply Finset.sum_le_sum
    intro j hj
    rw [Finset.mem_range] at hj
    have hfib1 : ((data.filter (fun pt => nearest_index cents pt = j)).map (fun pt =>
        squared_distance pt
          ((kmeans_step r cnt data k cents).getD (nearest_index cents pt) []))).sum =
        ((data.filter (fun pt => nearest_index cents pt = j)).map (fun pt =>
          squared_distance pt ((kmeans_step r cnt data k cents).getD j []))).sum := by
      apply congrArg
      apply List.map_congr_left
      intro pt hpt
      have := (List.mem_filter.mp hpt).2
      have haj : nearest_index cents pt = j := by simpa using this
      rw [haj]
    have hfib2 : ((data.filter (fun pt => nearest_index cents pt = j)).map (fun pt =>
        squared_distance pt (cents.getD (nearest_index cents pt) []))).sum =
        ((data.filter (fun pt => nearest_index cents pt = j)).map (fun pt =>
          squared_distance pt (cents.getD j []))).sum := by
      apply congrArg
      apply List.map_congr_left
      intro pt hpt
      have := (List.mem_filter.mp hpt).2
      have haj : nearest_index cents pt = j := by simpa using this
      rw [haj]
    rw [hfib1, hfib2]
    by_cases hcl : data.filter (fun pt => nearest_index cents pt = j) = []
    · rw [hcl]
      simp
    · rw [kmeans_step_getD r cnt data k cents j hj, if_neg hcl]
      obtain ⟨pt0, hpt0⟩ := List.exists_mem_of_ne_nil _ hcl
      have hjlt : j < cents.length := by
        have := (List.mem_filter.mp hpt0).2
        have haj : nearest_index cents pt0 = j := by simpa using this
        rw [← haj]
        exact nearest_index_lt cents pt0 hne
      apply centroid_min d _ hcl
      · intro p hp
        exact hdata p (List.mem_of_mem_filter hp)
      · exact hcent _ (getD_mem cents j [] hjlt)
  exact le_trans stepA stepB

/-- C6, witness: a concrete step strictly decreases the SSE (1 → 1/4). -/
theorem C6_sse_monotone_witness :
    sse [[0], [1]] (kmeans_step ⟨fun _ => 1/2, fun _ => 0⟩ 0 [[0], [1]] 2 [[0]]) ≤
      sse [[0], [1]] [[0]] :=
  C6_sse_monotone ⟨fun _ => 1/2, fun _ => 0⟩ 0 [[0], [1]] 2 1 [[0]]
    (by simp) (by simp) (by intro pt hpt; fin_cases hpt <;> rfl) (by simp)

/-! ### Claim C2, amended part: well-separated data gives exactly `k` centroids -/

theorem foldl_qmin_le_all (pt : List ℚ) (b : ℚ) :
    ∀ (cs : List (List ℚ)) (a : ℚ), b ≤ a → (∀ c ∈ cs, b ≤ squared_distance pt c) →
      b ≤ cs.foldl (fun acc c2 => qmin acc (squared_distance pt c2)) a := by
  intro cs
  induction cs with
  | nil => intro a ha _; exact ha
  | cons c cs ih =>
    intro a ha hall
    simp only [List.foldl_cons]
    apply ih
    · rw [qmin_eq]
      exact le_min ha (hall c (List.mem_cons_self c cs))
    · intro q hq
      exact hall q (List.mem_cons_of_mem c hq)

theorem min_sq_dist_ge (pt : List ℚ) (cents : List (List ℚ)) (b : ℚ) (hne : cents ≠ [])
    (h : ∀ c ∈ cents, b ≤ squared_distance pt c) : b ≤ min_sq_dist pt cents := by
  match cents with
  | c :: cs =>
    exact foldl_qmin_le_all pt b cs (squared_distance pt c) (h c (List.mem_cons_self c cs))
      (fun q hq => h q (List.mem_cons_of_mem c hq))

theorem min_sq_dist_nonneg (pt : List ℚ) (cents : List (List ℚ)) :
    0 ≤ min_sq_dist pt cents := by
  cases cents with
  | nil => norm_num [min_sq_dist]
  | cons c cs =>
    exact min_sq_dist_ge pt (c :: cs) 0 (by simp) (fun q _ => squared_distance_nonneg pt q)

theorem pick_index_aux_lt (rv : ℚ) :
    ∀ (ds : List ℚ) (cum : ℚ) (i j : ℕ), pick_index_aux rv ds cum i = some j →
      j < i + ds.length := by
  intro ds
  induction ds with
  | nil => intro cum i j h; simp [pick_index_aux] at h
  | cons d ds ih =>
    intro cum i j h
    simp only [pick_index_aux] at h
    by_cases hc : rv ≤ cum + d
    · rw [if_pos hc] at h
      simp only [Option.some.injEq] at h
      simp only [List.length_cons]
      omega
    · rw [if_neg hc] at h
      have := ih (cum + d) (i + 1) j h
      simp only [List.length_cons]
      omega

theorem kpp_next_mem (r : RandSrc) (data : List (List ℚ)) (cnt : ℕ) (cents : List (List ℚ))
    (hne : data ≠ []) : kpp_next r data cnt cents ∈ data := by
  unfold kpp_next
  cases hpick : pick_index_aux (r.rand cnt * (data.map (fun pt => min_sq_dist pt cents)).sum)
      (data.map (fun pt => min_sq_dist pt cents)) 0 0 with
  | some i =>
    have hi : i < data.length := by
      have := pick_index_aux_lt _ _ 0 0 i hpick
      simpa [List.length_map] using this
    exact getD_mem data i [] hi
  | none =>
    rw [List.getLast?_eq_getLast data hne]
    simp only [Option.getD_some]
    exact List.getLast_mem hne

theorem kpp_loop_spec (r : RandSrc) (data : List (List ℚ)) (k : ℕ)
    (hnodup : data.Nodup)
    (hsep : ∀ p ∈ data, ∀ q ∈ data, p ≠ q → 1/10000000000 ≤ squared_distance p q)
    (hk : k ≤ data.length) :
    ∀ (fuel cnt : ℕ) (cents : List (List ℚ)), cents ≠ [] → (∀ c ∈ cents, c ∈ data) →
      cents.length ≤ k → k ≤ cents.length + fuel →
      (kpp_loop r data k fuel cnt cents).length = k ∧
      ∀ c ∈ kpp_loop r data k fuel cnt cents, c ∈ data := by
  intro fuel
  induction fuel with
  | zero =>
    intro cnt cents _ hsub hle hge
    rw [kpp_loop.eq_def]
    rw [dif_pos rfl]
    exact ⟨by omega, hsub⟩
  | succ n ih =>
    intro cnt cents hne hsub hle hge
    rw [kpp_loop.eq_def]
    rw [dif_neg (Nat.succ_ne_zero n)]
    by_cases hlt : cents.length < k
    · rw [if_pos hlt]
      have hdne : data ≠ [] := by
        rw [← List.length_pos]
        omega
      have hout : ∃ pt, pt ∈ data ∧ pt ∉ cents := by
        by_contra hc
        push_neg at hc
        have hsub2 : data ⊆ cents := fun x hx => hc x hx
        have := (hnodup.subperm hsub2).length_le
        omega
      obtain ⟨pt0, hpt0d, hpt0c⟩ := hout
      have hmsd : 1/10000000000 ≤ min_sq_dist pt0 cents := by
        apply min_sq_dist_ge pt0 cents _ hne
        intro c hc
        exact hsep pt0 hpt0d c (hsub c hc) (by intro he; exact hpt0c (he ▸ hc))
      have hsum : 1/10000000000 ≤ (data.map (fun pt => min_sq_dist pt cents)).sum := by
        refine le_trans hmsd (List.single_le_sum ?_ _ (List.mem_map_of_mem _ hpt0d))
        intro x hx
        obtain ⟨pt, _, rfl⟩ := List.mem_map.mp hx
        exact min_sq_dist_nonneg pt cents
      have hdeg : ¬ ((data.map (fun pt => min_sq_dist pt cents)).sum = 0 ∨
          (data.map (fun pt => min_sq_dist pt cents)).sum < 1/10000000000) := by
        rintro (h | h) <;> linarith
      rw [if_neg hdeg]
      have happly := ih (cnt + 1) (cents ++ [kpp_next r data cnt cents])
        (by simp)
        (by
          intro c hc
          rcases List.mem_append.mp hc with hc | hc
          · exact hsub c hc
          · rw [List.mem_singleton] at hc
            exact hc ▸ kpp_next_mem r data cnt cents hdne)
        (by simp only [List.length_append, List.length_singleton]; omega)
        (by simp only [List.length_append, List.length_singleton]; omega)
      simpa [Nat.add_sub_cancel] using happly
    · rw [if_neg hlt]
      exact ⟨by omega, hsub⟩

theorem init_kmeans_spec (r : RandSrc) (data : List (List ℚ)) (k : ℕ)
    (hnodup : data.Nodup)
    (hsep : ∀ p ∈ data, ∀ q ∈ data, p ≠ q → 1/10000000000 ≤ squared_distance p q)
    (hk1 : 1 ≤ k) (hk2 : k ≤ data.length) :
    (init_kmeans_plus_plus r data k).length = k := by
  have hdne : data ≠ [] := by
    rw [← List.length_pos]
    omega
  unfold init_kmeans_plus_plus
  rw [if_neg hdne]
  by_cases hle : data.length ≤ k
  · rw [if_pos hle]
    omega
  · rw [if_neg hle]
    have h0 : py_choice r 0 data ∈ data := by
      unfold py_choice
      apply getD_mem
      exact Nat.mod_lt _ (List.length_pos.mpr hdne)
    exact (kpp_loop_spec r data k hnodup hsep hk2 k 1 [py_choice r 0 data]
      (by simp)
      (by intro c hc; rw [List.mem_singleton] at hc; exact hc ▸ h0)
      (by simp only [List.length_singleton]; omega)
      (by simp only [List.length_singleton]; omega)).1

theorem kmeans_loop_spec (r : RandSrc) (data : List (List ℚ)) (k : ℕ) (tol : ℚ)
    (hk : k ≠ 0) :
    ∀ (fuel it : ℕ) (cents : List (List ℚ)), fuel ≠ 0 → cents.length = k →
      (kmeans_loop r data k tol fuel it cents).1.length = k ∧
      (kmeans_loop r data k tol fuel it cents).2.1.length = data.length ∧
      ∀ a ∈ (kmeans_loop r data k tol fuel it cents).2.1, a < k := by
  intro fuel
  induction fuel with
  | zero => intro it cents hf _; exact absurd rfl hf
  | succ n ih =>
    intro it cents hf hlen
    have hcne : cents ≠ [] := by
      intro hc
      rw [hc] at hlen
      simp at hlen
      omega
    have hassign : ∀ (cs : List (List ℚ)), cs ≠ [] → cs.length = k →
        (data.map (nearest_index cs)).length = data.length ∧
        ∀ a ∈ data.map (nearest_index cs), a < k := by
      intro cs hcsne hcslen
      refine ⟨by simp, ?_⟩
      intro a ha
      obtain ⟨pt, _, rfl⟩ := List.mem_map.mp ha
      have := nearest_index_lt cs pt hcsne
      omega
    have hNClen : (kmeans_step r (k + 1 + it * k) data k cents).length = k :=
      kmeans_step_length r (k + 1 + it * k) data k cents
    have hNCne : kmeans_step r (k + 1 + it * k) data k cents ≠ [] := by
      intro hc
      rw [hc] at hNClen
      simp at hNClen
      omega
    rw [kmeans_loop.eq_def]
    rw [dif_neg (Nat.succ_ne_zero n)]
    by_cases h1 : shift_sq cents (kmeans_step r (k + 1 + it * k) data k cents) < tol ^ 2
    · rw [if_pos h1]
      exact ⟨hlen, (hassign cents hcne hlen).1, (hassign cents hcne hlen).2⟩
    · rw [if_neg h1]
      by_cases h2 : 5 < it ∧
          shift_sq cents (kmeans_step r (k + 1 + it * k) data k cents) < tol ^ 2 * 10
      · rw [if_pos h2]
        exact ⟨hNClen, (hassign cents hcne hlen).1, (hassign cents hcne hlen).2⟩
      · rw [if_neg h2]
        by_cases h3 : n + 1 = 1
        · rw [if_pos h3]
          exact ⟨hNClen, (hassign cents hcne hlen).1, (hassign cents hcne hlen).2⟩
        · rw [if_neg h3]
          have hn : n ≠ 0 := by omega
          have := ih (it + 1) (kmeans_step r (k + 1 + it * k) data k cents) hn hNClen
          simpa [Nat.add_sub_cancel] using this

theorem normalize_data_length (data : List (List ℚ)) :
    (normalize_data data).length = data.length := by
  cases data with
  | nil => rfl
  | cons d0 rest => simp [normalize_data]

/-- C2, amended: on a batch whose normalized feature vectors are pairwise
distinct with squared separation at least `1e-10` (so the degenerate early-stop
branch of `init_kmeans_plus_plus` is unreachable), with `1 ≤ k ≤ n` and at
least one iteration, `kmeans_from_irt` returns exactly `k` centroids and one
assignment per input point, each a centroid index below `k`. -/
theorem C2_kmeans_exact_k_amended (r : RandSrc) (recs : List IrtRecord) (k max_iter : ℕ)
    (tol : ℚ) (res : KMeansResult)
    (hk1 : 1 ≤ k) (hk2 : k ≤ recs.length) (hmi : max_iter ≠ 0)
    (hnodup : (normalize_data (recs.map irt_features)).Nodup)
    (hsep : ∀ p ∈ normalize_data (recs.map irt_features),
      ∀ q ∈ normalize_data (recs.map irt_features), p ≠ q →
        1/10000000000 ≤ squared_distance p q)
    (h : kmeans_from_irt r recs k max_iter tol = Except.ok res) :
    res.centroids.length = k ∧ res.assignments.length = recs.length ∧
      ∀ a ∈ res.assignments, a < k := by
  have hmapne : recs.map irt_features ≠ [] := by
    intro hc
    rw [List.map_eq_nil] at hc
    subst hc
    simp at hk2
    omega
  have hndlen : (normalize_data (recs.map irt_features)).length = recs.length := by
    rw [normalize_data_length, List.length_map]
  have hinitlen := init_kmeans_spec r (normalize_data (recs.map irt_features)) k
    hnodup hsep hk1 (by omega)
  have hloop := kmeans_loop_spec r (normalize_data (recs.map irt_features)) k tol
    (by omega) max_iter 0 (init_kmeans_plus_plus r (normalize_data (recs.map irt_features)) k)
    hmi hinitlen
  simp only [kmeans_from_irt] at h
  rw [if_neg hmapne] at h
  simp only [Except.ok.injEq] at h
  subst h
  exact ⟨hloop.1, hndlen ▸ hloop.2.1, hloop.2.2⟩

theorem C2_witness_normalized :
    normalize_data (([⟨0,0,0,0⟩, ⟨1,1,1,1⟩, ⟨1,0,0,0⟩] : List IrtRecord).map irt_features) =
      [[0,0,0,0], [1,1,1,1], [1,0,0,0]] := by
  norm_num [normalize_data, irt_features, qmin, qmax, List.zipWith]

theorem C2_witness_run :
    kmeans_from_irt ⟨fun _ => 1/2, fun _ => 0⟩
        [⟨0,0,0,0⟩, ⟨1,1,1,1⟩, ⟨1,0,0,0⟩] 2 100 (1/10000) =
      Except.ok ⟨[[1/2,0,0,0], [1,1,1,1]], [0,1,0], 2, 2⟩ := by
  simp only [kmeans_from_irt]
  norm_num [irt_features, normalize_data, init_kmeans_plus_plus, qmin, qmax, List.zipWith,
    py_choice, List.getD, List.cons_ne_nil]
  rw [kpp_loop.eq_def]
  norm_num [min_sq_dist, squared_distance, kpp_next, pick_index_aux, py_choice, qmin,
    List.getD, List.filter, List.cons_ne_nil]
  rw [kpp_loop.eq_def]
  norm_num [min_sq_dist, squared_distance, kpp_next, pick_index_aux, py_choice, qmin,
    List.getD, List.filter, List.cons_ne_nil]
  rw [kmeans_loop.eq_def]
  norm_num [kmeans_step, nearest_index, nearest_scan, squared_distance, compute_centroid,
    shift_sq, py_choice, List.filter, List.getD, List.range_succ, List.cons_ne_nil]
  rw [kmeans_loop.eq_def]
  norm_num [kmeans_step, nearest_index, nearest_scan, squared_distance, compute_centroid,
    shift_sq, py_choice, List.filter, List.getD, List.range_succ, List.cons_ne_nil]

/-- C2, witness for the amended theorem: three well-separated records with
`k = 2` yield two centroids and three in-range assignments. -/
theorem C2_kmeans_exact_k_amended_witness :
    ([[(1:ℚ)/2,0,0,0], [1,1,1,1]] : List (List ℚ)).length = 2 ∧
    ([0,1,0] : List ℕ).length = 3 ∧
    ((0:ℕ) < 2 ∧ (1:ℕ) < 2) := by
  have h := C2_kmeans_exact_k_amended ⟨fun _ => 1/2, fun _ => 0⟩
    [⟨0,0,0,0⟩, ⟨1,1,1,1⟩, ⟨1,0,0,0⟩] 2 100 (1/10000)
    ⟨[[1/2,0,0,0], [1,1,1,1]], [0,1,0], 2, 2⟩
    (by norm_num) (by norm_num) (by norm_num)
    (by
      rw [C2_witness_normalized]
      norm_num [List.nodup_cons])
    (by
      rw [C2_witness_normalized]
      intro p hp q hq hne
      fin_cases hp <;> fin_cases hq <;>
        first
          | exact absurd rfl hne
          | norm_num [squared_distance])
    C2_witness_run
  exact ⟨h.1, h.2.1, h.2.2 0 (by simp), h.2.2 1 (by simp)⟩

/-! ## `SkillBasedMatchMaking.py`

`find_best_match` reads and mutates the module-level `_dda_instance`
(`DDASystem(stability_threshold=0.05, momentum_factor=0.6)`); the instance's
state is passed in and returned explicitly.  The `rank_name` argument is
accepted by the Python function but never influences the result: the inner
`irt_probability` call takes the `exp = None` path which reads
`get_rank_data("user")`, so it is omitted here. -/

/-- `SkillBasedMatchMaking.normalize`. -/
def sbm_normalize (value min_val max_val : ℚ) : ℚ :=
  if max_val = min_val then 1/2
  else if (value - min_val) / (max_val - min_val) < 0 then 0
  else if 1 < (value - min_val) / (max_val - min_val) then 1
  else (value - min_val) / (max_val - min_val)

/-- `SkillBasedMatchMaking.adaptive_weights`. -/
def adaptive_weights (consistency : ℚ) : ℚ × ℚ :=
  (qmax (2/5) (1 - consistency) / (qmax (2/5) (1 - consistency) + qmin (3/5) (consistency + 3/10)),
   qmin (3/5) (consistency + 3/10) / (qmax (2/5) (1 - consistency) + qmin (3/5) (consistency + 3/10)))

/-- `SkillBasedMatchMaking.calculate_match_score`. -/
def calculate_match_score (theta_a theta_b beta_a beta_b w_theta w_beta : ℚ) : ℚ :=
  pyround 3 (1 - qmin (w_theta * qabs (theta_a - theta_b) + w_beta * qabs (beta_a - beta_b)) 1)

/-- Members of cluster `j` under `assign_clusters` (and under the identical
nearest-centroid scan inlined in `find_best_match`): the data-point indices
whose nearest centroid is `j`, in ascending order. -/
def cluster_members (cents dp : List (List ℚ)) (j : ℕ) : List ℕ :=
  (List.range dp.length).filter (fun i => nearest_index cents (dp.getD i []) = j)

/-- The fallback of `find_best_match` when the player's own cluster has no
other member: Python sorts the populated `(c_idx, dist)` pairs by distance
(stably, so ties keep the lower index) and takes the first, i.e. the populated
cluster of minimal squared distance, lowest index on ties. -/
def fallback_cluster (cents dp : List (List ℚ)) (ppoint : List ℚ) : Option ℕ :=
  match (List.range cents.length).filter (fun j => ¬ cluster_members cents dp j = []) with
  | [] => none
  | j0 :: rest => some (rest.foldl
      (fun best j =>
        if squared_distance ppoint (cents.getD j []) <
            squared_distance ppoint (cents.getD best []) then j else best) j0)

/-- Result fields of `find_best_match` the claims are about.  `profile_theta`
and `profile_beta` are the `IRT_Profile` entries; the early returns of the
Python function produce dicts without that key, modelled as `none`. -/
structure MatchResult where
  player_index : ℕ
  match_index : Option ℕ
  match_score : ℚ
  cluster : Option ℕ
  profile_theta : Option ℚ
  profile_beta : Option ℚ
  consistency : Option ℚ
deriving DecidableEq

/-- `SkillBasedMatchMaking.find_best_match`, state-passing.  Data points are
`[theta, beta]` pairs read as coordinates 0 and 1.  Defaults of the inner
`adjust_difficulty` call: `target_performance = 0.7`, `adjustment_rate = 0.1`.
An out-of-range `player_index` (an `IndexError`, before the DDA instance is
touched) and empty `centroids` (a `KeyError` inside `assign_clusters`, after
the DDA instance was already mutated) are modelled as a `none` result. -/
def find_best_match (t s : ℚ → ℚ) (st : DDAState) (player_index : ℕ)
    (data_points : List (List ℚ)) (centroids : List (List ℚ))
    (completed_achievements success_count fail_count : ℤ) :
    Option MatchResult × DDAState :=
  if data_points.length < 2 then
    (some ⟨player_index, none, 0, none, none, none, none⟩, st)
  else if data_points.length ≤ player_index then (none, st)
  else
    let theta := (data_points.getD player_index []).getD 0 0
    let beta_old := (data_points.getD player_index []).getD 1 0
    let irt := irt_probability t s theta beta_old completed_achievements success_count fail_count
    let dda := adjust_difficulty t st beta_old ⟨irt.probability, irt.adjusted_theta⟩
      (fetch_success_metrics s (if success_count < 0 then 0 else success_count))
      (fetch_fail_metrics s (if fail_count < 0 then 0 else fail_count)) (7/10) (1/10)
    if centroids = [] then (none, dda.2)
    else
      let player_cluster := nearest_index centroids (data_points.getD player_index [])
      let base := (cluster_members centroids data_points player_cluster).filter
        (fun i => ¬ i = player_index)
      let candidates :=
        if base = [] then
          match fallback_cluster centroids data_points (data_points.getD player_index []) with
          | some j => cluster_members centroids data_points j
          | none => []
        else base
      if candidates = [] then
        (some ⟨player_index, none, 0, some player_cluster, none, none, none⟩, dda.2)
      else
        let consistency :=
          if 0 < success_count + fail_count then
            sbm_normalize ((success_count : ℚ) / ((success_count + fail_count : ℤ) : ℚ)) 0 1
          else 1/2
        let w := adaptive_weights consistency
        let best := candidates.foldl
          (fun acc idx =>
            if acc.2 < calculate_match_score irt.adjusted_theta
                ((data_points.getD idx []).getD 0 0) dda.1.beta_new
                ((data_points.getD idx []).getD 1 0) w.1 w.2 then
              (some idx, calculate_match_score irt.adjusted_theta
                ((data_points.getD idx []).getD 0 0) dda.1.beta_new
                ((data_points.getD idx []).getD 1 0) w.1 w.2)
            else acc)
          ((none : Option ℕ), -1)
        (some ⟨player_index, best.1, pyround 3 best.2, some player_cluster,
          some irt.adjusted_theta, some dda.1.beta_new, some (pyround 3 consistency)⟩, dda.2)

/-! ## `Multiplayer_Based.py` and `algorithms/matchmaking.py` -/

/-- A raw player dict: the fields `find_matches` reads (with the dict-get
defaults applied by the caller); `rank_name` and `user_id` never influence the
computed groups, scores or indices and are omitted. -/
structure PlayerRec where
  theta : ℚ
  beta : ℚ
  success_count : ℤ
  fail_count : ℤ
  completed_achievements : ℤ
deriving DecidableEq

/-- One formed match: the player indices of its members, the cluster tag
(`some j` for a within-cluster match, `none` for `"cross_cluster"`), and the
reported score. -/
structure MatchGroup where
  members : List ℕ
  cluster : Option ℕ
  match_score : ℚ

/-- Python's stable `list.sort(key=...)` on index lists, as a stable insertion
sort (any two stable sorts agree on a total preorder key). -/
def insert_by (key : ℕ → ℚ) (x : ℕ) : List ℕ → List ℕ
  | [] => [x]
  | y :: ys => if key x ≤ key y then x :: y :: ys else y :: insert_by key x ys

def sort_by (key : ℕ → ℚ) : List ℕ → List ℕ
  | [] => []
  | x :: xs => insert_by key x (sort_by key xs)

/-- `sum((t - mean)**2 for t in thetas) / len(thetas)` with
`mean = sum(thetas)/len(thetas)`. -/
def variance_of (xs : List ℚ) : ℚ :=
  (xs.map (fun x => (x - xs.sum / (xs.length : ℚ)) ^ 2)).sum / (xs.length : ℚ)

/-- `MultiplayerMatchmaker._calculate_group_score`. -/
def calculate_group_score (prof : ℕ → ℚ) (group : List ℕ) : ℚ :=
  if group.length < 2 then 0
  else pyround 3 (1 - qmin (variance_of (group.map prof) * 4) 1)

/-- `MultiplayerMatchmaker._find_best_group_fast`.  For `match_size = 2` the
best adjacent pair by theta difference; otherwise the consecutive window of
lowest theta variance.  All call sites guarantee `1 ≤ m`. -/
def find_best_group_fast (prof : ℕ → ℚ) (candidates : List ℕ) (m : ℕ) (min_score : ℚ) :
    Option (List ℕ) :=
  if candidates.length < m then none
  else if m = 2 then
    let best := (candidates.zip candidates.tail).foldl
      (fun acc p =>
        if qabs (prof p.1 - prof p.2) < acc.2 then ((p.1, p.2), qabs (prof p.1 - prof p.2))
        else acc)
      ((candidates.getD 0 0, candidates.getD 1 0),
        qabs (prof (candidates.getD 0 0) - prof (candidates.getD 1 0)))
    if min_score ≤ 1 - qmin best.2 1 then some [best.1.1, best.1.2] else none
  else
    match (List.range (candidates.length - m + 1)).foldl
      (fun (acc : Option (List ℕ × ℚ)) start =>
        match acc with
        | none => some ((candidates.drop start).take m,
            variance_of (((candidates.drop start).take m).map prof))
        | some bv =>
          if variance_of (((candidates.drop start).take m).map prof) < bv.2 then
            some ((candidates.drop start).take m,
              variance_of (((candidates.drop start).take m).map prof))
          else some bv) none with
    | none => none
    | some bv =>
      if bv.1 = [] then none
      else if min_score ≤ 1 - qmin (bv.2 * 4) 1 then some bv.1 else none

/-- One `while len(available) >= match_size` loop of `find_matches`: form a
group, record it with its score, remove its members from `available`
(`matched_players.update` plus the list comprehension), or pop the head when
no group qualifies.  Each pass shrinks `available`, so fuel
`available.length + 1` always suffices. -/
def match_loop (prof : ℕ → ℚ) (m : ℕ) (min_score : ℚ) (tag : Option ℕ)
    (fuel : ℕ) (available : List ℕ) : List MatchGroup :=
  if hf : fuel = 0 then []
  else if m ≤ available.length then
    match find_best_group_fast prof available m min_score with
    | some grp =>
      if ¬ grp = [] ∧ grp.length = m then
        ⟨grp, tag, calculate_group_score prof grp⟩ ::
          match_loop prof m min_score tag (fuel - 1) (available.filter (fun i => i ∉ grp))
      else match_loop prof m min_score tag (fuel - 1) available.tail
    | none => match_loop prof m min_score tag (fuel - 1) available.tail
  else []
termination_by fuel
decreasing_by all_goals omega

/-- Members of cluster `j` under the k-means `assignments` list
(`cluster_map` of `find_matches`), in ascending index order. -/
def cluster_of (assignments : List ℕ) (j : ℕ) : List ℕ :=
  (List.range assignments.length).filter (fun i => assignments.getD i 0 = j)

/-- The matching phases of `find_matches` after clustering: per-cluster
matching in ascending cluster-id order (iterating all ids up to the maximum
assignment covers every key of `cluster_map`; absent ids have no members and
are no-ops), then the optional cross-cluster pass over the sorted remainder. -/
def cluster_fold_step (prof : ℕ → ℚ) (assignments : List ℕ) (m : ℕ) (min_score : ℚ)
    (st : List MatchGroup × List ℕ) (j : ℕ) : List MatchGroup × List ℕ :=
  let avail := (sort_by prof (cluster_of assignments j)).filter (fun i => i ∉ st.2)
  let gs := match_loop prof m min_score (some j) (avail.length + 1) avail
  (st.1 ++ gs, st.2 ++ (gs.map MatchGroup.members).flatten)

def find_matches_core (prof : ℕ → ℚ) (assignments : List ℕ) (n m : ℕ)
    (allow_cross : Bool) (min_score : ℚ) : List MatchGroup :=
  let step1 := (List.range (assignments.foldl max 0 + 1)).foldl
    (cluster_fold_step prof assignments m min_score)
    (([] : List MatchGroup), ([] : List ℕ))
  if allow_cross then
    step1.1 ++ match_loop prof m min_score none
      (((List.range n).filter (fun i => i ∉ step1.2)).length + 1)
      (sort_by prof ((List.range n).filter (fun i => i ∉ step1.2)))
  else step1.1

/-- The per-player profile theta of `prepare_player_data`: the IRT
`adjusted_theta` (the sort and score key of the matching phases). -/
def player_profile_theta (t s : ℚ → ℚ) (players : List PlayerRec) : ℕ → ℚ := fun i =>
  (irt_probability t s (players.getD i ⟨0, 1/2, 0, 0, 0⟩).theta
    (players.getD i ⟨0, 1/2, 0, 0, 0⟩).beta
    (players.getD i ⟨0, 1/2, 0, 0, 0⟩).completed_achievements
    (players.getD i ⟨0, 1/2, 0, 0, 0⟩).success_count
    (players.getD i ⟨0, 1/2, 0, 0, 0⟩).fail_count).adjusted_theta

/-- The clustering input rows built by `prepare_player_data`. -/
def player_irt_records (t s : ℚ → ℚ) (players : List PlayerRec) : List IrtRecord :=
  players.map (fun p =>
    ⟨(irt_probability t s p.theta p.beta p.completed_achievements p.success_count
        p.fail_count).adjusted_theta,
     (irt_probability t s p.theta p.beta p.completed_achievements p.success_count
        p.fail_count).probability,
     if 0 < p.success_count + p.fail_count then
       (p.success_count : ℚ) / ((p.success_count + p.fail_count : ℤ) : ℚ) else 1/2,
     if 0 < p.success_count + p.fail_count then
       (p.fail_count : ℚ) / ((p.success_count + p.fail_count : ℤ) : ℚ) else 1/2⟩)

/-- `MultiplayerMatchmaker.find_matches` (with `max_iter = 100`,
`tolerance = 1e-4` from the constructor and `effective_k = max(1, min(k, n))`
from `cluster_players`).  `match_size <= 0` makes the Python loop body raise
(`ZeroDivisionError` in the variance of an empty window, or `ValueError` from
clustering an empty batch), modelled as `none`. -/
def find_matches (t s : ℚ → ℚ) (r : RandSrc) (k_clusters : ℕ) (players : List PlayerRec)
    (match_size : ℤ) (allow_cross : Bool) (min_score : ℚ) : Option (List MatchGroup) :=
  if (players.length : ℤ) < match_size then some []
  else if match_size ≤ 0 then none
  else
    match kmeans_from_irt r (player_irt_records t s players)
        (max 1 (min k_clusters players.length)) 100 (1/10000) with
    | Except.error _ => none
    | Except.ok kres =>
      some (find_matches_core (player_profile_theta t s players) kres.assignments
        players.length match_size.toNat allow_cross min_score)

/-- The `find_matches` branch of `algorithms/matchmaking.py`: an empty player
list raises `ValueError("players list cannot be empty")`; any other uncaught
exception also reaches the top-level handler. -/
def form_matches_service (t s : ℚ → ℚ) (r : RandSrc) (k_clusters : ℕ)
    (players : List PlayerRec) (match_size : ℤ) (allow_cross : Bool) (min_score : ℚ) :
    Except String (List MatchGroup) :=
  if players = [] then Except.error "players list cannot be empty"
  else
    match find_matches t s r k_clusters players match_size allow_cross min_score with
    | some ms => Except.ok ms
    | none => Except.error "matchmaking raised an uncaught exception"

/-! ### Claim C5 — group invariants of `find_matches` -/

theorem foldl_preserves {α β : Type} (P : β → Prop) (f : β → α → β) :
    ∀ (l : List α) (init : β), P init → (∀ b, P b → ∀ a ∈ l, P (f b a)) →
      P (l.foldl f init) := by
  intro l
  induction l with
  | nil => intro init h0 _; exact h0
  | cons a t ih =>
    intro init h0 hstep
    simp only [List.foldl_cons]
    exact ih (f init a) (hstep init h0 a (List.mem_cons_self a t))
      (fun b hb a2 ha2 => hstep b hb a2 (List.mem_cons_of_mem a ha2))

theorem insert_by_perm (key : ℕ → ℚ) (x : ℕ) :
    ∀ l : List ℕ, (insert_by key x l).Perm (x :: l) := by
  intro l
  induction l with
  | nil => exact List.Perm.refl _
  | cons y ys ih =>
    unfold insert_by
    split
    · exact List.Perm.refl _
    · exact (ih.cons y).trans (List.Perm.swap x y ys)

theorem sort_by_perm (key : ℕ → ℚ) : ∀ l : List ℕ, (sort_by key l).Perm l := by
  intro l
  induction l with
  | nil => exact List.Perm.refl _
  | cons x xs ih =>
    unfold sort_by
    exact (insert_by_perm key x (sort_by key xs)).trans (ih.cons x)

theorem zip_tail_sublist : ∀ (l : List ℕ) (p : ℕ × ℕ), p ∈ l.zip l.tail →
    [p.1, p.2].Sublist l := by
  intro l
  induction l with
  | nil => intro p hp; simp at hp
  | cons a t ih =>
    intro p hp
    cases t with
    | nil => simp at hp
    | cons b t2 =>
      simp only [List.tail_cons, List.zip_cons_cons] at hp
      rcases List.mem_cons.mp hp with rfl | hp2
      · exact ((List.nil_sublist t2).cons₂ b).cons₂ a
      · exact (ih p hp2).cons a

theorem find_best_group_fast_sublist (prof : ℕ → ℚ) (candidates : List ℕ) (m : ℕ)
    (min_score : ℚ) (grp : List ℕ)
    (h : find_best_group_fast prof candidates m min_score = some grp) :
    grp.Sublist candidates := by
  simp only [find_best_group_fast] at h
  by_cases h1 : candidates.length < m
  · rw [if_pos h1] at h
    simp at h
  · rw [if_neg h1] at h
    by_cases h2 : m = 2
    · rw [if_pos h2] at h
      obtain ⟨c0, c1, rest, hc⟩ : ∃ c0 c1 rest, candidates = c0 :: c1 :: rest := by
        cases candidates with
        | nil => subst h2; simp at h1
        | cons c0 t =>
          cases t with
          | nil => subst h2; simp at h1
          | cons c1 rest => exact ⟨c0, c1, rest, rfl⟩
      subst hc
      split at h
      · simp only [Option.some.injEq] at h
        subst h
        refine foldl_preserves
          (fun st : (ℕ × ℕ) × ℚ => [st.1.1, st.1.2].Sublist (c0 :: c1 :: rest)) _ _ _
          ?_ ?_
        · exact ((List.nil_sublist rest).cons₂ c1).cons₂ c0
        · intro b hb p hp
          dsimp only
          split
          · exact zip_tail_sublist _ p hp
          · exact hb
      · simp at h
    · rw [if_neg h2] at h
      have hfold := foldl_preserves
        (fun acc : Option (List ℕ × ℚ) => ∀ gv : List ℕ × ℚ, acc = some gv →
          gv.1.Sublist candidates)
        (fun acc start =>
          match acc with
          | none => some ((candidates.drop start).take m,
              variance_of (((candidates.drop start).take m).map prof))
          | some bv =>
            if variance_of (((candidates.drop start).take m).map prof) < bv.2 then
              some ((candidates.drop start).take m,
                variance_of (((candidates.drop start).take m).map prof))
            else some bv)
        (List.range (candidates.length - m + 1)) none (by simp) ?_
      · split at h
        · simp at h
        · rename_i bv heq
          split at h
          · simp at h
          · split at h
            · simp only [Option.some.injEq] at h
              subst h
              exact hfold bv heq
            · simp at h
      · intro b hb a _
        cases b with
        | none =>
          intro gv hgv
          simp only [Option.some.injEq] at hgv
          rw [← hgv]
          exact (List.take_sublist m _).trans (List.drop_sublist a candidates)
        | some bv =>
          intro gv hgv
          simp only [] at hgv
          split at hgv
          · simp only [Option.some.injEq] at hgv
            rw [← hgv]
            exact (List.take_sublist m _).trans (List.drop_sublist a candidates)
          · simp only [Option.some.injEq] at hgv
            rw [← hgv]
            exact hb bv rfl

theorem variance_of_nonneg (xs : List ℚ) : 0 ≤ variance_of xs := by
  unfold variance_of
  apply div_nonneg
  · apply List.sum_nonneg
    intro x hx
    rw [List.mem_map] at hx
    obtain ⟨y, _, rfl⟩ := hx
    positivity
  · positivity

theorem calculate_group_score_mem (prof : ℕ → ℚ) (group : List ℕ) :
    0 ≤ calculate_group_score prof group ∧ calculate_group_score prof group ≤ 1 := by
  unfold calculate_group_score
  split
  · norm_num
  · have hv := variance_of_nonneg (group.map prof)
    rw [qmin_eq]
    have hle : min (variance_of (group.map prof) * 4) 1 ≤ 1 := min_le_right _ _
    have hge : 0 ≤ min (variance_of (group.map prof) * 4) 1 :=
      le_min (by linarith) (by norm_num)
    exact ⟨pyround_nonneg 3 _ (by linarith), pyround_le_one 3 _ (by linarith)⟩

theorem match_loop_spec (prof : ℕ → ℚ) (m : ℕ) (min_score : ℚ) (tag : Option ℕ) :
    ∀ (fuel : ℕ) (available : List ℕ), available.Nodup →
      (∀ g ∈ match_loop prof m min_score tag fuel available,
        g.members.length = m ∧ g.members.Nodup ∧ (∀ i ∈ g.members, i ∈ available) ∧
        0 ≤ g.match_score ∧ g.match_score ≤ 1) ∧
      List.Pairwise (fun g1 g2 : MatchGroup => ∀ i ∈ g1.members, i ∉ g2.members)
        (match_loop prof m min_score tag fuel available) := by
  intro fuel
  induction fuel with
  | zero =>
    intro available _
    rw [match_loop.eq_def]
    rw [dif_pos rfl]
    exact ⟨by simp, List.Pairwise.nil⟩
  | succ n ih =>
    intro available hnd
    have htail : (∀ g ∈ match_loop prof m min_score tag n available.tail,
        g.members.length = m ∧ g.members.Nodup ∧ (∀ i ∈ g.members, i ∈ available) ∧
        0 ≤ g.match_score ∧ g.match_score ≤ 1) ∧
        List.Pairwise (fun g1 g2 : MatchGroup => ∀ i ∈ g1.members, i ∉ g2.members)
          (match_loop prof m min_score tag n available.tail) := by
      obtain ⟨h1, h2⟩ := ih available.tail (hnd.sublist (List.tail_sublist available))
      refine ⟨?_, h2⟩
      intro g hg
      obtain ⟨p1, p2, p3, p4, p5⟩ := h1 g hg
      exact ⟨p1, p2, fun i hi => (List.tail_sublist available).subset (p3 i hi), p4, p5⟩
    rw [match_loop.eq_def]
    rw [dif_neg (Nat.succ_ne_zero n)]
    simp only [Nat.add_sub_cancel]
    by_cases hlen : m ≤ available.length
    · rw [if_pos hlen]
      split
      · rename_i grp hg
        split
        · rename_i hok
          have hsub := find_best_group_fast_sublist prof available m min_score grp hg
          obtain ⟨ihall, ihpw⟩ := ih (available.filter (fun i => i ∉ grp))
            (hnd.filter _)
          constructor
          · intro g hgm
            rcases List.mem_cons.mp hgm with rfl | hgm
            · refine ⟨hok.2, hnd.sublist hsub, fun i hi => hsub.subset hi, ?_, ?_⟩
              · exact (calculate_group_score_mem prof grp).1
              · exact (calculate_group_score_mem prof grp).2
            · obtain ⟨p1, p2, p3, p4, p5⟩ := ihall g hgm
              exact ⟨p1, p2, fun i hi => List.mem_of_mem_filter (p3 i hi), p4, p5⟩
          · rw [List.pairwise_cons]
            constructor
            · intro g2 hg2 i hi hig2
              have hmem := (ihall g2 hg2).2.2.1 i hig2
              rw [List.mem_filter] at hmem
              simp only [decide_not, Bool.not_eq_true', decide_eq_false_iff_not] at hmem
              exact hmem.2 hi
            · exact ihpw
        · exact htail
      · exact htail
    · rw [if_neg hlen]
      exact ⟨by simp, List.Pairwise.nil⟩

theorem cluster_fold_step_spec (prof : ℕ → ℚ) (assignments : List ℕ) (m : ℕ)
    (min_score : ℚ) (st : List MatchGroup × List ℕ) (j : ℕ)
    (hst : (∀ g ∈ st.1, g.members.length = m ∧ g.members.Nodup ∧
        (∀ i ∈ g.members, i ∈ st.2) ∧ 0 ≤ g.match_score ∧ g.match_score ≤ 1) ∧
      List.Pairwise (fun g1 g2 : MatchGroup => ∀ i ∈ g1.members, i ∉ g2.members) st.1) :
    (∀ g ∈ (cluster_fold_step prof assignments m min_score st j).1,
      g.members.length = m ∧ g.members.Nodup ∧
      (∀ i ∈ g.members, i ∈ (cluster_fold_step prof assignments m min_score st j).2) ∧
      0 ≤ g.match_score ∧ g.match_score ≤ 1) ∧
    List.Pairwise (fun g1 g2 : MatchGroup => ∀ i ∈ g1.members, i ∉ g2.members)
      (cluster_fold_step prof assignments m min_score st j).1 := by
  obtain ⟨stall, stpw⟩ := hst
  simp only [cluster_fold_step]
  set avail := (sort_by prof (cluster_of assignments j)).filter (fun i => i ∉ st.2) with ha
  have havnd : avail.Nodup := by
    rw [ha]
    apply List.Nodup.filter
    exact ((sort_by_perm prof (cluster_of assignments j)).nodup_iff).mpr
      ((List.nodup_range assignments.length).filter _)
  obtain ⟨mlall, mlpw⟩ := match_loop_spec prof m min_score (some j)
    (avail.length + 1) avail havnd
  constructor
  · intro g hg
    rcases List.mem_append.mp hg with hg | hg
    · obtain ⟨p1, p2, p3, p4, p5⟩ := stall g hg
      exact ⟨p1, p2, fun i hi => List.mem_append_left _ (p3 i hi), p4, p5⟩
    · obtain ⟨p1, p2, p3, p4, p5⟩ := mlall g hg
      refine ⟨p1, p2, fun i hi => List.mem_append_right _ ?_, p4, p5⟩
      rw [List.mem_flatten]
      exact ⟨g.members, List.mem_map_of_mem MatchGroup.members hg, hi⟩
  · rw [List.pairwise_append]
    refine ⟨stpw, mlpw, ?_⟩
    intro g1 hg1 g2 hg2 i hi1 hi2
    have hin2 : i ∈ avail := (mlall g2 hg2).2.2.1 i hi2
    have hin1 : i ∈ st.2 := (stall g1 hg1).2.2.1 i hi1
    rw [ha, List.mem_filter] at hin2
    simp only [decide_not, Bool.not_eq_true', decide_eq_false_iff_not] at hin2
    exact hin2.2 hin1

theorem find_matches_core_spec (prof : ℕ → ℚ) (assignments : List ℕ) (n m : ℕ)
    (allow_cross : Bool) (min_score : ℚ) :
    (∀ g ∈ find_matches_core prof assignments n m allow_cross min_score,
      g.members.length = m ∧ g.members.Nodup ∧
      0 ≤ g.match_score ∧ g.match_score ≤ 1) ∧
    List.Pairwise (fun g1 g2 : MatchGroup => ∀ i ∈ g1.members, i ∉ g2.members)
      (find_matches_core prof assignments n m allow_cross min_score) := by
  have hstep1 := foldl_preserves
    (fun st : List MatchGroup × List ℕ =>
      (∀ g ∈ st.1, g.members.length = m ∧ g.members.Nodup ∧
        (∀ i ∈ g.members, i ∈ st.2) ∧ 0 ≤ g.match_score ∧ g.match_score ≤ 1) ∧
      List.Pairwise (fun g1 g2 : MatchGroup => ∀ i ∈ g1.members, i ∉ g2.members) st.1)
    (cluster_fold_step prof assignments m min_score)
    (List.range (assignments.foldl max 0 + 1)) ([], [])
    ⟨by simp, List.Pairwise.nil⟩
    (fun st hst j _ => cluster_fold_step_spec prof assignments m min_score st j hst)
  obtain ⟨stall, stpw⟩ := hstep1
  simp only [find_matches_core]
  split
  · obtain ⟨mlall, mlpw⟩ := match_loop_spec prof m min_score none
      (((List.range n).filter (fun i => i ∉ ((List.range (assignments.foldl max 0 + 1)).foldl
          (cluster_fold_step prof assignments m min_score) ([], [])).2)).length + 1)
      (sort_by prof ((List.range n).filter (fun i => i ∉ ((List.range
          (assignments.foldl max 0 + 1)).foldl
          (cluster_fold_step prof assignments m min_score) ([], [])).2)))
      (((sort_by_perm prof _).nodup_iff).mpr ((List.nodup_range n).filter _))
    constructor
    · intro g hg
      rcases List.mem_append.mp hg with hg | hg
      · obtain ⟨p1, p2, _, p4, p5⟩ := stall g hg
        exact ⟨p1, p2, p4, p5⟩
      · obtain ⟨p1, p2, _, p4, p5⟩ := mlall g hg
        exact ⟨p1, p2, p4, p5⟩
    · rw [List.pairwise_append]
      refine ⟨stpw, mlpw, ?_⟩
      intro g1 hg1 g2 hg2 i hi1 hi2
      have hin2 := (mlall g2 hg2).2.2.1 i hi2
      have hin1 := (stall g1 hg1).2.2.1 i hi1
      have hin2f := (sort_by_perm prof _).mem_iff.mp hin2
      rw [List.mem_filter] at hin2f
      simp only [decide_not, Bool.not_eq_true', decide_eq_false_iff_not] at hin2f
      exact hin2f.2 hin1
  · constructor
    · intro g hg
      obtain ⟨p1, p2, _, p4, p5⟩ := stall g hg
      exact ⟨p1, p2, p4, p5⟩
    · exact stpw

/-- C5: whatever the player list, match size, cross-cluster flag and score
threshold, every group in a returned match list has exactly `match_size`
members, no index repeats within a group or appears in two groups, and every
reported score lies in `[0, 1]`. -/
theorem C5_match_invariants (t s : ℚ → ℚ) (r : RandSrc) (k_clusters : ℕ)
    (players : List PlayerRec) (match_size : ℤ) (allow_cross : Bool) (min_score : ℚ)
    (groups : List MatchGroup)
    (h : find_matches t s r k_clusters players match_size allow_cross min_score =
      some groups) :
    (∀ g ∈ groups, g.members.length = match_size.toNat ∧ g.members.Nodup ∧
      0 ≤ g.match_score ∧ g.match_score ≤ 1) ∧
    List.Pairwise (fun g1 g2 : MatchGroup => ∀ i ∈ g1.members, i ∉ g2.members) groups := by
  unfold find_matches at h
  by_cases h1 : (players.length : ℤ) < match_size
  · rw [if_pos h1] at h
    simp only [Option.some.injEq] at h
    subst h
    exact ⟨by simp, List.Pairwise.nil⟩
  · rw [if_neg h1] at h
    by_cases h2 : match_size ≤ 0
    · rw [if_pos h2] at h
      simp at h
    · rw [if_neg h2] at h
      split at h
      · simp at h
      · simp only [Option.some.injEq] at h
        subst h
        exact find_matches_core_spec (player_profile_theta t s players) _ players.length
          match_size.toNat allow_cross min_score

/-- C5, witness: a concrete call (one player, match size 2) returns a match
list, and the theorem's invariants hold of it. -/
theorem C5_match_invariants_witness :
    List.Pairwise (fun g1 g2 : MatchGroup => ∀ i ∈ g1.members, i ∉ g2.members)
      ([] : List MatchGroup) :=
  (C5_match_invariants tWit sqrt_model ⟨fun _ => 0, fun _ => 0⟩ 3
    [⟨0, 1/2, 0, 0, 0⟩] 2 true (1/2) [] (by norm_num [find_matches])).2

/-! ### Claim C9 — error handling of the service entry points -/

/-- C9: the `find_matches` service branch rejects an empty player list with
`ValueError("players list cannot be empty")`; a non-empty list shorter than
`match_size` yields an empty match list without error (both from
`find_matches` itself and through the service wrapper); and
`kmeans_from_irt` on an empty batch raises its `ValueError`. -/
theorem C9_error_handling (t s : ℚ → ℚ) (r : RandSrc) (k_clusters : ℕ) (match_size : ℤ)
    (allow_cross : Bool) (min_score tol : ℚ) (players : List PlayerRec) (k max_iter : ℕ)
    (hne : players ≠ []) (hlt : (players.length : ℤ) < match_size) :
    form_matches_service t s r k_clusters [] match_size allow_cross min_score =
      Except.error "players list cannot be empty" ∧
    find_matches t s r k_clusters players match_size allow_cross min_score = some [] ∧
    form_matches_service t s r k_clusters players match_size allow_cross min_score =
      Except.ok [] ∧
    kmeans_from_irt r [] k max_iter tol =
      Except.error "IRT data is empty. Cannot perform K-Means clustering." := by
  have h2 : find_matches t s r k_clusters players match_size allow_cross min_score =
      some [] := by
    unfold find_matches
    rw [if_pos hlt]
  refine ⟨?_, h2, ?_, ?_⟩
  · unfold form_matches_service
    rw [if_pos rfl]
  · unfold form_matches_service
    rw [if_neg hne, h2]
  · unfold kmeans_from_irt
    norm_num

/-- C9, witness: the three behaviours at concrete inputs (empty list; one
player with match size 3; empty clustering batch). -/
theorem C9_error_handling_witness :
    form_matches_service tWit sqrt_model ⟨fun _ => 0, fun _ => 0⟩ 3 [] 3 true (1/2) =
      Except.error "players list cannot be empty" ∧
    find_matches tWit sqrt_model ⟨fun _ => 0, fun _ => 0⟩ 3 [⟨0, 1/2, 0, 0, 0⟩] 3 true (1/2) =
      some [] ∧
    form_matches_service tWit sqrt_model ⟨fun _ => 0, fun _ => 0⟩ 3 [⟨0, 1/2, 0, 0, 0⟩] 3
      true (1/2) = Except.ok [] ∧
    kmeans_from_irt ⟨fun _ => 0, fun _ => 0⟩ [] 3 100 (1/10000) =
      Except.error "IRT data is empty. Cannot perform K-Means clustering." :=
  C9_error_handling tWit sqrt_model ⟨fun _ => 0, fun _ => 0⟩ 3 3 true (1/2) (1/10000)
    [⟨0, 1/2, 0, 0, 0⟩] 3 100 (by simp) (by norm_num)

/-! ### Claim C10 — `find_best_match` depends on shared mutable DDA state -/

/-- C10: `find_best_match` is not a function of its arguments alone.  Starting
from the module-initial `_dda_instance` state
(`DDASystem(stability_threshold=0.05, momentum_factor=0.6)`: no previous
beta, zero momentum), two consecutive calls with identical arguments
(player 0 of two identical `[theta, beta] = [0, 0.5]` points, one centroid)
return different `IRT_Profile` betas (`0.539` then `0.517`, as the second
call sees the first call's stored previous beta and momentum) and different
match scores (`0.956` then `0.968`). -/
theorem C10_shared_state :
    (find_best_match tWit sqrt_model ⟨none, 0, 1/20, 3/5⟩ 0
        [[0, 1/2], [0, 1/2]] [[0, 1/2]] 0 0 0).1 =
      some ⟨0, some 1, 239/250, some 0, some (-(1/20)), some (539/1000), some (1/2)⟩ ∧
    (find_best_match tWit sqrt_model
        (find_best_match tWit sqrt_model ⟨none, 0, 1/20, 3/5⟩ 0
          [[0, 1/2], [0, 1/2]] [[0, 1/2]] 0 0 0).2 0
        [[0, 1/2], [0, 1/2]] [[0, 1/2]] 0 0 0).1 =
      some ⟨0, some 1, 121/125, some 0, some (-(1/20)), some (517/1000), some (1/2)⟩ ∧
    ((539 : ℚ)/1000 ≠ 517/1000 ∧ (239 : ℚ)/250 ≠ 121/125) := by
  have h1 : find_best_match tWit sqrt_model ⟨none, 0, 1/20, 3/5⟩ 0
      [[0, 1/2], [0, 1/2]] [[0, 1/2]] 0 0 0 =
      (some ⟨0, some 1, 239/250, some 0, some (-(1/20)), some (539/1000), some (1/2)⟩,
       ⟨some (895344426137674097464874977529/1661539299674919563886012900000),
        178127609/10992240000, 1/20, 3/5⟩) := by
    norm_num [find_best_match, irt_probability, irt_clamp, sigmoid, update_ability,
      compute_confidence, get_success_rate, get_fail_rate, get_rank_data_default,
      fetch_success_metrics, fetch_fail_metrics, adjust_difficulty, sanitize_beta,
      clamp_beta, BETA_MIN, BETA_MAX, MAX_BETA_STEP, calculate_behavior_weight,
      calculate_sensitivity, apply_behavior_weight, enforce_stability_gate,
      momentum_next, apply_momentum, slow_if_recently_stable, propose_beta, cap_step,
      preserve_on_perfect_performance, dda_gated, dda_final_adjustment, dda_capped,
      dda_beta_new, tWit, sqrt_model, qmin, qmax, qabs, pyround, roundHalfEven,
      nearest_index, nearest_scan, squared_distance, cluster_members, fallback_cluster,
      calculate_match_score, adaptive_weights, sbm_normalize, List.range_succ,
      List.filter, List.getD, List.cons_ne_nil, MatchResult.mk.injEq]
  have h2 : (find_best_match tWit sqrt_model
      (⟨some (895344426137674097464874977529/1661539299674919563886012900000),
        178127609/10992240000, 1/20, 3/5⟩ : DDAState) 0
      [[0, 1/2], [0, 1/2]] [[0, 1/2]] 0 0 0).1 =
      some ⟨0, some 1, 121/125, some 0, some (-(1/20)), some (517/1000), some (1/2)⟩ := by
    norm_num [find_best_match, irt_probability, irt_clamp, sigmoid, update_ability,
      compute_confidence, get_success_rate, get_fail_rate, get_rank_data_default,
      fetch_success_metrics, fetch_fail_metrics, adjust_difficulty, sanitize_beta,
      clamp_beta, BETA_MIN, BETA_MAX, MAX_BETA_STEP, calculate_behavior_weight,
      calculate_sensitivity, apply_behavior_weight, enforce_stability_gate,
      momentum_next, apply_momentum, slow_if_recently_stable, propose_beta, cap_step,
      preserve_on_perfect_performance, dda_gated, dda_final_adjustment, dda_capped,
      dda_beta_new, tWit, sqrt_model, qmin, qmax, qabs, pyround, roundHalfEven,
      nearest_index, nearest_scan, squared_distance, cluster_members, fallback_cluster,
      calculate_match_score, adaptive_weights, sbm_normalize, List.range_succ,
      List.filter, List.getD, List.cons_ne_nil, MatchResult.mk.injEq]
  refine ⟨by rw [h1], ?_, by norm_num, by norm_num⟩
  rw [h1]
  exact h2

end Puzzcode
